import Mathlib

/-!
Verification development for the fine-tuning pipeline orchestrator
(`src/pipeline_automatic.py`, `src/config.py`,
`src/fine_tuning/ft_job_monitoring.py`, `src/cli/evaluation_menu.py`).

The Python code is shallowly embedded: pure helpers become Lean functions on
`String` / `List`; the orchestrator's effectful run becomes an explicit
trace-producing function parameterised by an environment that supplies the
result of every remote call and file read.  Python strings are modelled by
Lean `String`, with the character-level operations (`startswith`, `lstrip`,
`isdigit`, substring search, `split(sep, 1)`) re-implemented over `List Char`
to mirror Python semantics exactly.
-/

namespace MlopsPipeline

/-! ## Python string primitives -/

/-- Python `s.startswith(p)`: `p` is a character-prefix of `s`. -/
def pyStartsWith (s p : String) : Bool :=
  p.toList.isPrefixOf s.toList

/-- Python `s.endswith(p)`: `p` is a character-suffix of `s`. -/
def pyEndsWith (s p : String) : Bool :=
  p.toList.isSuffixOf s.toList

/-- Occurrence test for a character pattern inside a character list
(Python `pat in s`, also the semantics of an unanchored regex literal). -/
def listContainsSub (pat : List Char) : List Char → Bool
  | [] => pat.isPrefixOf []
  | c :: cs => pat.isPrefixOf (c :: cs) || listContainsSub pat cs

/-- Python `pat in s` on strings. -/
def pyContains (s pat : String) : Bool :=
  listContainsSub pat.toList s.toList

/-- Python `s.lstrip("v")`: drop every leading `'v'`. -/
def pyLstripV (s : String) : String :=
  ⟨s.toList.dropWhile (· = 'v')⟩

/-- Python `s.isdigit()`: nonempty and all characters are decimal digits. -/
def pyIsDigit (s : String) : Bool :=
  !s.toList.isEmpty && s.toList.all Char.isDigit

/-- Python `int(s)` on a digit string (decimal). -/
def digitsToNat (cs : List Char) : Nat :=
  cs.foldl (fun n c => n * 10 + (c.toNat - '0'.toNat)) 0

/-- Everything after the first occurrence of `sep` (Python
`s.split(sep, 1)[1]`; the callers below only use it under a guard that
guarantees `sep` occurs, so the `[]` fallback is unreachable there). -/
def dropThroughFirst (sep : Char) : List Char → List Char
  | [] => []
  | c :: cs => if c = sep then cs else dropThroughFirst sep cs

/-- Python `s.lower()` restricted to ASCII, which is what the dataset
filenames use; `Char.toLower` matches Python on ASCII. -/
def pyLower (s : String) : String :=
  ⟨s.toList.map Char.toLower⟩

/-- Python `s.upper()` restricted to ASCII (`lang_pair.upper()` in the
pipeline's suffix formatting). -/
def pyUpper (s : String) : String :=
  ⟨s.toList.map Char.toUpper⟩

/-! ## Dataset Locator: version selection

`discover_latest_version_dir` (src/pipeline_automatic.py, lines 40-53) keeps
the sub-directories whose name matches the anchored regex `v(\d+)$`, pairs
each with its integer, sorts the `(int, name)` pairs and returns the last
one.  `_auto_version` (src/config.py, lines 65-73) instead keeps the
sub-directories whose name is all digits after `lstrip("v")` and sorts them
by that integer key (Python's stable sort). -/

/-- The anchored regex `v(\d+)$` of `discover_latest_version_dir`: a literal
`'v'` followed by one or more digits and nothing else.  Returns the captured
integer. -/
def parseVersionName (name : String) : Option Nat :=
  match name.toList with
  | 'v' :: rest =>
      if !rest.isEmpty && rest.all Char.isDigit then some (digitsToNat rest)
      else none
  | _ => none

/-- Insertion sort by a boolean comparator, modelling Python's `sorted`
(an element is inserted before the first existing element it compares
`le` to, hence after existing elements the comparator ties with — the
stable behaviour when `le` is a strict key comparison). -/
def insertBy (le : α → α → Bool) (x : α) : List α → List α
  | [] => [x]
  | y :: ys => if le x y then x :: y :: ys else y :: insertBy le x ys

def sortBy (le : α → α → Bool) : List α → List α
  | [] => []
  | x :: xs => insertBy le x (sortBy le xs)

/-- Lexicographic `≤` on `(int, name)` pairs, the order Python's `sorted`
uses on the tuples built by `discover_latest_version_dir`. -/
def pairLe (a b : Nat × String) : Bool :=
  a.1 < b.1 || (a.1 = b.1 && decide (a.2 ≤ b.2))

/-- Python's `sorted(versions)` on the `(int, name)` pairs. -/
def sortPairs : List (Nat × String) → List (Nat × String) :=
  sortBy pairLe

/-- `discover_latest_version_dir` (src/pipeline_automatic.py, lines 40-53),
on the list of sub-directory names of `root`.  `sorted(versions)[-1]` is
modelled by `getLastD`; the default is unreachable because the emptiness
check precedes it. -/
def discoverLatestVersionDir (dirEntries : List String) : Except String String :=
  if (dirEntries.filterMap fun d => (parseVersionName d).map fun n => (n, d)).isEmpty then
    .error "No v* subfolders"
  else
    .ok ((sortPairs (dirEntries.filterMap fun d =>
      (parseVersionName d).map fun n => (n, d))).getLastD (0, "")).snd

/-- Stable sort by a `Nat` key: a new element goes after existing elements
with the same key, matching Python's stable `sorted(..., key=...)`. -/
def sortByKey (key : String → Nat) : List String → List String :=
  sortBy fun x y => decide (key x < key y)

/-- `_auto_version` (src/config.py, lines 65-73): keep sub-directories whose
name is all digits after stripping leading `v`s, sort them (stably) by that
integer, return the last; raise `FileNotFoundError` when none qualify. -/
def autoVersion (dirEntries : List String) : Except String String :=
  match (sortByKey (fun d => digitsToNat (pyLstripV d).toList)
      (dirEntries.filter fun d => pyIsDigit (pyLstripV d))).getLast? with
  | none => .error "No v* directories found"
  | some v => .ok v

/-! ## Dataset Locator: split-file collection

`collect_dataset_files` (src/pipeline_automatic.py, lines 55-75) matches
each directory entry against the case-insensitive regexes
`(?i).*?(train|training).*\.jsonl$` (and the `valid`/`eval` analogues).
Since no keyword can straddle the final `.jsonl`, an entry matches exactly
when its lower-cased name ends with `.jsonl` and contains one of the
(lower-case) keywords. -/

/-- Keyword table of `_PATTERNS` (and `_FILE_KEYWORDS` in src/config.py). -/
def splitKeywords : List (String × List String) :=
  [("train", ["train", "training"]),
   ("valid", ["valid", "validation"]),
   ("eval",  ["eval", "evaluation"])]

/-- One regex of `_PATTERNS`: case-insensitive keyword occurrence in a name
ending with `.jsonl`. -/
def splitPatternMatch (kws : List String) (name : String) : Bool :=
  let low := pyLower name
  ".jsonl".toList.isSuffixOf low.toList && kws.any fun k => pyContains low k

/-- Errors raised by `collect_dataset_files`. -/
inductive CollectError where
  | missing (split dir : String)
  | multiple (split dir : String) (found : List String)
  deriving DecidableEq

/-- `os.path.join(version_dir, f)`. -/
def pathJoin (dir f : String) : String := dir ++ "/" ++ f

/-- The per-split selection inside the `collect_dataset_files` loop. -/
def findSplit (dir : String) (entries : List String) (typ : String)
    (kws : List String) : Except CollectError String :=
  match entries.filter (splitPatternMatch kws) with
  | [] => .error (.missing typ dir)
  | [f] => .ok f
  | fs => .error (.multiple typ dir fs)

/-- `collect_dataset_files` (src/pipeline_automatic.py, lines 61-75): exactly
one `.jsonl` per split, in the `train`, `valid`, `eval` insertion order of
`_PATTERNS`; missing or duplicated matches raise. -/
def collectDatasetFiles (dir : String) (entries : List String) :
    Except CollectError (List (String × String)) :=
  match findSplit dir entries "train" ["train", "training"] with
  | .error err => .error err
  | .ok t =>
    match findSplit dir entries "valid" ["valid", "validation"] with
    | .error err => .error err
    | .ok v =>
      match findSplit dir entries "eval" ["eval", "evaluation"] with
      | .error err => .error err
      | .ok e =>
        .ok [("train", pathJoin dir t), ("valid", pathJoin dir v),
             ("eval", pathJoin dir e)]

/-! ## Dataset Locator: the zero-config resolver's file selection

`_find_file` (src/config.py, lines 76-82) iterates the directory entries
and returns the FIRST `.jsonl` file whose stem contains any keyword
(case-insensitively); it raises only when no entry matches — unlike
`collect_dataset_files`, it never raises on duplicate matches. -/

/-- `name.rfind('.')`: index of the last `'.'` in the name, `none` when
absent. -/
def pyRfindDot (name : String) : Option Nat :=
  ((List.range name.toList.length).filter
    (fun i => name.toList.getD i ' ' = '.')).getLast?

/-- `PurePath(name).suffix`: the part from the last dot, nonempty exactly
when the last dot sits at an index `i` with `0 < i < len - 1`. -/
def pySuffix (name : String) : String :=
  match pyRfindDot name with
  | some i =>
      if 0 < i ∧ i < name.toList.length - 1 then ⟨name.toList.drop i⟩ else ""
  | none => ""

/-- `PurePath(name).stem`: the name without its suffix. -/
def pyStem (name : String) : String :=
  match pyRfindDot name with
  | some i =>
      if 0 < i ∧ i < name.toList.length - 1 then ⟨name.toList.take i⟩ else name
  | none => name

/-- The per-entry test of `_find_file` (config.py, lines 79-81):
`fp.suffix.lower() == ".jsonl"` and the case-insensitive keyword regex
finds a keyword in `fp.stem`. -/
def findFileMatch (kws : List String) (name : String) : Bool :=
  pyLower (pySuffix name) == ".jsonl" &&
    kws.any fun k => pyContains (pyLower (pyStem name)) k

/-- `_find_file` (src/config.py, lines 76-82): return the first entry that
matches; raise `FileNotFoundError` when none does.  Duplicate matches are
silently resolved to the first. -/
def findFile (entries : List String) (kws : List String) : Except String String :=
  match entries with
  | [] => .error "No .jsonl matching keywords"
  | e :: rest => if findFileMatch kws e then .ok e else findFile rest kws

/-! ## Config Resolver

`ConfigLoader._validate_schema` (src/config.py, lines 154-174) performs
shallow key-presence checks.  The document model below records exactly the
fields the validator inspects, plus the dataset split ratios a declarative
document may additionally declare — the validator never reads those, which
is the point of claim C2. -/

/-- A declarative (YAML-mode) configuration document, restricted to the
fields `_validate_schema` inspects plus optional split-ratio declarations. -/
structure ConfigDoc where
  hasDataset : Bool
  hasFineTuning : Bool
  hasEvaluation : Bool
  /-- `dataset.base_dir` when present. -/
  base_dir : Option String
  /-- Optional train/validation/evaluation split ratios declared in the
  dataset section; `_validate_schema` never reads them. -/
  splitRatios : Option (ℚ × ℚ × ℚ)
  ftHasEnable : Bool
  ftHasBaseModel : Bool
  ftHasSuffixTemplate : Bool
  ftHasHyperparameters : Bool
  evHasEnable : Bool
  evHasDataSourceConfigPath : Bool
  evHasTestingCriteriaPath : Bool
  evHasDataSourceRunPath : Bool
  deriving DecidableEq

/-- `ConfigLoader._validate_schema` (src/config.py, lines 154-174); `isDir`
is the filesystem oracle behind `Path(ds["base_dir"]).is_dir()`. -/
def validateSchema (isDir : String → Bool) (cfg : ConfigDoc) :
    Except String Unit :=
  if !(cfg.hasDataset && cfg.hasFineTuning && cfg.hasEvaluation) then
    .error "Missing top-level keys"
  else if !(match cfg.base_dir with
            | some d => isDir d
            | none => false) then
    .error "dataset.base_dir missing or invalid"
  else if !cfg.ftHasEnable then .error "fine_tuning.enable missing"
  else if !cfg.ftHasBaseModel then .error "fine_tuning.base_model missing"
  else if !cfg.ftHasSuffixTemplate then
    .error "fine_tuning.suffix_template missing"
  else if !cfg.ftHasHyperparameters then
    .error "fine_tuning.hyperparameters missing"
  else if !cfg.evHasEnable then .error "evaluation.enable missing"
  else if !cfg.evHasDataSourceConfigPath then
    .error "evaluation.data_source_config_path missing"
  else if !cfg.evHasTestingCriteriaPath then
    .error "evaluation.testing_criteria_path missing"
  else if !cfg.evHasDataSourceRunPath then
    .error "evaluation.data_source_run_path missing"
  else .ok ()

/-! ## Suffix synthesis

`DEFAULT_SUFFIX_TEMPLATE = "{lang_pair}-translator-{version}-{method}"`
(src/config.py, line 51).  `_build_ft_config` (lines 108-112) formats it
with `version.lstrip("v")`; `run_automatic_pipeline` (lines 105-112)
formats the same template with the raw `version` directory name and an
upper-cased lang pair. -/

/-- `DEFAULT_SUFFIX_TEMPLATE.format(lang_pair=…, version=…, method=…)`. -/
def defaultSuffixFormat (lang_pair version method : String) : String :=
  lang_pair ++ "-translator-" ++ version ++ "-" ++ method

/-- The suffix synthesized by `_build_ft_config` (src/config.py,
lines 108-112) under the default template. -/
def buildFtSuffix (lang_pair version method : String) : String :=
  defaultSuffixFormat lang_pair (pyLstripV version) method

/-- The suffix recomputed by `run_automatic_pipeline` (lines 105-112) under
the default template: raw version, upper-cased lang pair. -/
def pipelineSuffix (lang_pair version method : String) : String :=
  defaultSuffixFormat (pyUpper lang_pair) version method

/-! ## Job Lifecycle Monitor (src/fine_tuning/ft_job_monitoring.py) -/

/-- A fine-tuning job snapshot, restricted to the dictionary keys the
pipeline reads (`id`, `status`, `model`); absent keys are `none`. -/
structure JobObj where
  id : Option String
  status : Option String
  model : Option String
  deriving DecidableEq

/-- The terminal statuses (`terminal` / `terminal_states` in the source). -/
def terminalStates : List String := ["succeeded", "failed", "cancelled"]

/-- `_poll_job_until_done` (src/fine_tuning/ft_job_monitoring.py,
lines 33-42): fetch, check `status in terminal`, return on terminal, else
sleep and repeat.  `retrieve n` is the snapshot returned by the `n`-th
fetch; `fuel` bounds the number of fetches so the model stays total —
`none` means the loop is still polling after `fuel` fetches. -/
def pollJobUntilDone (retrieve : Nat → JobObj) : Nat → Nat → Option JobObj
  | 0, _ => none
  | fuel + 1, n =>
    let job := retrieve n
    match job.status with
    | some s =>
        if terminalStates.contains s then some job
        else pollJobUntilDone retrieve fuel (n + 1)
    | none => pollJobUntilDone retrieve fuel (n + 1)

/-- The `data` payload of a fine-tuning event, restricted to the keys
`_metrics_df` reads.  Loss values are carried opaquely as rationals. -/
structure EventData where
  step : Option Int
  train_loss : Option ℚ
  valid_loss : Option ℚ
  full_valid_loss : Option ℚ
  deriving DecidableEq

/-- A fine-tuning event as `_metrics_df` sees it. -/
structure FtEvent where
  type : Option String
  data : Option EventData
  deriving DecidableEq

/-- One row of the tidy metrics frame built by `_metrics_df`. -/
structure MetricsRow where
  step : Int
  train_loss : Option ℚ
  valid_loss : Option ℚ
  full_valid_loss : Option ℚ
  deriving DecidableEq

/-- The `records` list built by the loop of `_metrics_df` (lines 65-77):
keep events of type `"metrics"` whose `data.step` is present. -/
def metricsRecords (events : List FtEvent) : List MetricsRow :=
  events.filterMap fun evt =>
    if evt.type = some "metrics" then
      let d := evt.data.getD ⟨none, none, none, none⟩
      match d.step with
      | none => none
      | some st => some ⟨st, d.train_loss, d.valid_loss, d.full_valid_loss⟩
    else none

/-- Row order used by `sort_values("step", ascending=True)`. -/
def stepLe (a b : MetricsRow) : Prop := a.step ≤ b.step

instance : DecidableRel stepLe := fun a b => by
  unfold stepLe; infer_instance

instance : IsTotal MetricsRow stepLe := ⟨fun a b => le_total a.step b.step⟩

instance : IsTrans MetricsRow stepLe :=
  ⟨fun _ _ _ h h' => le_trans (α := ℤ) h h'⟩

/-- Ascending sort by `step`, modelling
`pd.DataFrame(records).sort_values("step", ascending=True)`. -/
def sortRowsByStep (rows : List MetricsRow) : List MetricsRow :=
  List.insertionSort stepLe rows

/-- `_metrics_df` (src/fine_tuning/ft_job_monitoring.py, lines 63-78).
`pd.DataFrame(records)` has a `step` column exactly when `records` is
nonempty, so `sort_values("step")` on the empty frame raises
`KeyError: 'step'`, modelled as the `.error` branch. -/
def metricsDf (events : List FtEvent) : Except String (List MetricsRow) :=
  if (metricsRecords events).isEmpty then .error "KeyError: step"
  else .ok (sortRowsByStep (metricsRecords events))

/-- Filesystem side effects of `monitor_and_report` (the four tabular/JSON
writes and the chart), plus the fetches preceding them. -/
inductive MEffect where
  | fetchJob
  | fetchEvents
  | fetchCheckpoints
  | writeJobJson
  | writeEventsCsv
  | writeCheckpointsCsv
  | writeMetricsCsv
  | writeCurvePng
  deriving DecidableEq

/-- Environment for one `monitor_and_report` invocation: the polled
snapshots and the artifacts fetched after termination. -/
structure MonitorEnv where
  retrieve : Nat → JobObj
  events : List FtEvent
  checkpointCount : Nat

/-- `monitor_and_report` (src/fine_tuning/ft_job_monitoring.py,
lines 135-175) as a trace of effects: poll until terminal (steps 1-2 fetch
the job, events and checkpoints), build the three frames (step 3 — where
`_metrics_df` may raise `KeyError`), then write the four files and the
chart (steps 6-7).  `none` means the poll loop was still running after
`fuel` fetches. -/
def monitorAndReport (env : MonitorEnv) (fuel : Nat) :
    Option (List MEffect × Except String (List MetricsRow)) :=
  match pollJobUntilDone env.retrieve fuel 0 with
  | none => none
  | some _job =>
    match metricsDf env.events with
    | .error e =>
        some ([.fetchJob, .fetchEvents, .fetchCheckpoints], .error e)
    | .ok df =>
        some ([.fetchJob, .fetchEvents, .fetchCheckpoints, .writeJobJson,
               .writeEventsCsv, .writeCheckpointsCsv, .writeMetricsCsv,
               .writeCurvePng], .ok df)

/-! ## Evaluation run-template documents

The run template (`data_source_run.json`) as read by the orchestrator
(src/pipeline_automatic.py, lines 199-212) and by the interactive menu
(src/cli/evaluation_menu.py, lines 145-164). -/

/-- The `source` object of a run template / run document. -/
structure SourceObj where
  type : String
  id : String
  deriving DecidableEq

/-- The `input_messages` object of a run template. -/
structure InputMessages where
  type : Option String
  item_reference : Option String
  deriving DecidableEq

/-- A run-template document, restricted to the keys either code path
touches; all other template content passes through both paths unchanged. -/
structure RunDoc where
  model : Option String
  source : Option SourceObj
  references : Option String
  input_messages : Option InputMessages
  deriving DecidableEq

/-- The per-string sanitization of the menu (lines 156-157 / 161-162):
`s.split(".", 1)[1]` when `s.startswith("item.")`, else unchanged.  The
guard guarantees a dot occurs, so `dropThroughFirst`'s fallback is dead. -/
def stripItemRef (s : String) : String :=
  if pyStartsWith s "item." then ⟨dropThroughFirst '.' s.toList⟩ else s

/-- The `item.`-sanitization block of `EvaluationMenu._create_evaluation_and_run`
(src/cli/evaluation_menu.py, lines 154-162). -/
def sanitizeRunCfg (doc : RunDoc) : RunDoc :=
  let doc1 :=
    match doc.references with
    | some r => { doc with references := some (stripItemRef r) }
    | none => doc
  match doc1.input_messages with
  | some im =>
      if im.type = some "item_reference" then
        match im.item_reference with
        | some r =>
            { doc1 with
              input_messages := some { im with item_reference := some (stripItemRef r) } }
        | none => doc1
      else doc1
  | none => doc1

/-- The template update of `run_automatic_pipeline` (lines 210-212):
`run_cfg["model"] = fine_tuned_model` and
`run_cfg["source"] = {"type": "file_id", "id": uploaded["eval"]}`;
every other key, `references` and `input_messages` included, is left
untouched. -/
def updateRunCfg (doc : RunDoc) (fineTunedModel : Option String)
    (evalFileId : String) : RunDoc :=
  { doc with model := fineTunedModel,
             source := some ⟨"file_id", evalFileId⟩ }

/-! ## Pipeline Orchestrator (src/pipeline_automatic.py, lines 94-232)

`run_automatic_pipeline` from the upload phase onward, as an explicit
trace-producing function.  The dataset-discovery prefix (lines 82-92) is
modelled by `discoverLatestVersionDir` / `collectDatasetFiles` above; the
pipeline function takes the discovered `(split, path)` list as input, which
is exactly the value `collect_dataset_files` returns.  Every remote call
and file read is resolved through an `Env` oracle; each call emits an
effect into the trace when it is issued. -/

/-- Observable actions of one orchestrator run. -/
inductive Effect where
  | upload (split path : String)
  | createFtJob
  | sleepPoll
  | retrieveJob
  | printSnapshot
  | fetchEvents
  | printEvents (n : Nat)
  | logEventsError (msg : String)
  | fetchCheckpoints
  | printCheckpoints (n : Nat)
  | logCheckpointsError (msg : String)
  | monitorReport
  | warnEvalDisabled
  | warnMissingEvalFile
  | createEval
  | logCreateEvalError (msg : String)
  | warnMissingRunTemplate
  | createEvalRunEff (doc : RunDoc)
  | logCreateRunError (msg : String)
  | listOutputItemsEff
  | printItems (shown : Nat) (truncated : Bool)
  | logItemsError (msg : String)
  | doneMsg
  deriving DecidableEq

/-- How an orchestrator run ends: a normal Python `return` (early or at the
end), an uncaught exception, or — a model artifact — the poll loop still
running when `fuel` fetches are exhausted. -/
inductive POutcome where
  | finished
  | raised (msg : String)
  | timedOut
  deriving DecidableEq

/-- Oracle for every external interaction of one run. -/
structure Env where
  /-- `fm.upload_file` result per (split, path): the file id, or a raised
  transport error. -/
  uploadRes : String → String → Except String String
  /-- `ftm.create_fine_tuning_job` result. -/
  createJobRes : Except String JobObj
  /-- `ftm.retrieve_fine_tuning_job` result for the `n`-th poll iteration. -/
  retrieveRes : Nat → JobObj
  /-- `ftm.list_fine_tuning_events` during diagnosis (event count or raised
  error). -/
  eventsRes : Except String Nat
  /-- `ftm.list_fine_tuning_checkpoints` during diagnosis. -/
  ckptsRes : Except String Nat
  /-- Outcome of `monitor_and_report` (it may itself raise, e.g. the
  `KeyError` of `_metrics_df`). -/
  reportRes : Except String Unit
  /-- `evaluation.enable` in the config. -/
  evalEnable : Bool
  /-- Content of `data_source_config_path`; `none` = `FileNotFoundError`. -/
  dataSrcCfg : Option String
  /-- Content of `testing_criteria_path`; `none` = `FileNotFoundError`. -/
  testCrit : Option String
  /-- Content of `data_source_run_path`; `none` = `FileNotFoundError`. -/
  runTemplate : Option RunDoc
  /-- `evm.create_evaluation` result. -/
  createEvalRes : Except String String
  /-- `evm.create_evaluation_run` result. -/
  createRunRes : Except String String
  /-- `evm.list_output_items` result (item count or raised error). -/
  outputItemsRes : Except String Nat

/-- The upload loop (lines 96-101): one `upload_file` call per discovered
split, in order; the first raised error propagates (no try/except). -/
def uploadPhase (env : Env) :
    List (String × String) → List Effect × Except String (List (String × String))
  | [] => ([], .ok [])
  | (typ, path) :: rest =>
    match env.uploadRes typ path with
    | .error e => ([.upload typ path], .error e)
    | .ok fid =>
      let (tr, res) := uploadPhase env rest
      (.upload typ path :: tr,
       res.map fun ups => (typ, fid) :: ups)

/-- The wait loop (lines 129-136): while the status is non-terminal, sleep,
re-fetch, update the status.  Returns the final snapshot and status, or
`none` when `fuel` re-fetches were exhausted with the job still
non-terminal. -/
def pollLoop (env : Env) : Nat → Nat → JobObj → String →
    List Effect × Option (JobObj × String)
  | fuel, n, job, status =>
    if terminalStates.contains status then ([], some (job, status))
    else
      match fuel with
      | 0 => ([], none)
      | fuel' + 1 =>
        let job' := env.retrieveRes n
        let status' := job'.status.getD "unknown"
        let (tr, res) := pollLoop env fuel' (n + 1) job' status'
        (Effect.sleepPoll :: Effect.retrieveJob :: tr, res)

/-- The failure-diagnosis block (lines 139-164): print the snapshot, then
best-effort fetch/print the events and the checkpoints, each in its own
`try/except` whose handler only logs. -/
def diagTrace (env : Env) : List Effect :=
  Effect.printSnapshot ::
    ((match env.eventsRes with
      | .ok n => [Effect.fetchEvents, Effect.printEvents n]
      | .error e => [Effect.fetchEvents, Effect.logEventsError e]) ++
     (match env.ckptsRes with
      | .ok n => [Effect.fetchCheckpoints, Effect.printCheckpoints n]
      | .error e => [Effect.fetchCheckpoints, Effect.logCheckpointsError e]))

/-- Lines 139-232 of `run_automatic_pipeline`: everything after the wait
loop, given the uploaded file ids, the final job snapshot and its terminal
status. -/
def pipelineTail (env : Env) (uploaded : List (String × String))
    (job : JobObj) (status : String) : List Effect × POutcome :=
  if status ≠ "succeeded" then
    (diagTrace env, .finished)
  else
    match env.reportRes with
    | .error e => ([Effect.monitorReport], .raised e)
    | .ok _ =>
      let tr0 := [Effect.monitorReport]
      if !env.evalEnable then (tr0 ++ [Effect.warnEvalDisabled], .finished)
      else
        match env.dataSrcCfg, env.testCrit with
        | none, _ => (tr0 ++ [Effect.warnMissingEvalFile], .finished)
        | some _, none => (tr0 ++ [Effect.warnMissingEvalFile], .finished)
        | some _, some _ =>
          let tr1 := tr0 ++ [Effect.createEval]
          match env.createEvalRes with
          | .error e => (tr1 ++ [Effect.logCreateEvalError e], .finished)
          | .ok _evId =>
            match env.runTemplate with
            | none => (tr1 ++ [Effect.warnMissingRunTemplate], .finished)
            | some doc =>
              match uploaded.lookup "eval" with
              | none => (tr1, .raised "KeyError: eval")
              | some fid =>
                let doc' := updateRunCfg doc job.model fid
                let tr2 := tr1 ++ [Effect.createEvalRunEff doc']
                match env.createRunRes with
                | .error e => (tr2 ++ [Effect.logCreateRunError e], .finished)
                | .ok _runId =>
                  let tr3 := tr2 ++ [Effect.listOutputItemsEff]
                  match env.outputItemsRes with
                  | .error e =>
                      (tr3 ++ [Effect.logItemsError e, Effect.doneMsg], .finished)
                  | .ok n =>
                      (tr3 ++ [Effect.printItems (min n 5) (decide (5 < n)),
                               Effect.doneMsg], .finished)

/-- `run_automatic_pipeline` from the upload phase onward (lines 94-232):
upload every discovered split (an upload error propagates), create the job
(emitting the `createFtJob` call), run the wait loop, then the tail. -/
def runPipeline (env : Env) (dsFiles : List (String × String)) (fuel : Nat) :
    List Effect × POutcome :=
  match uploadPhase env dsFiles with
  | (tr, .error e) => (tr, .raised e)
  | (tr, .ok uploaded) =>
    let tr := tr ++ [Effect.createFtJob]
    match env.createJobRes with
    | .error e => (tr, .raised e)
    | .ok job =>
      let status0 := job.status.getD "unknown"
      match pollLoop env fuel 0 job status0 with
      | (trp, none) => (tr ++ trp, .timedOut)
      | (trp, some (jobF, st)) =>
        let (trt, out) := pipelineTail env uploaded jobF st
        (tr ++ trp ++ trt, out)

/-- The run documents submitted to `Evaluation.createRun` within a trace. -/
def submittedRunDocs (tr : List Effect) : List RunDoc :=
  tr.filterMap fun ef =>
    match ef with
    | .createEvalRunEff doc => some doc
    | _ => none

/-! ## Concrete instances used to exercise the model

A representative dataset, job and environment, used below to evaluate the
embedded pipeline on closed inputs. -/

/-- A queued job snapshot. -/
def jobQ : JobObj := { id := some "ft1", status := some "queued", model := none }

/-- The same job once succeeded, carrying the fine-tuned model id. -/
def jobS : JobObj :=
  { id := some "ft1", status := some "succeeded", model := some "ft:gpt-4o:acme" }

/-- A run template whose reference paths use the qualified `item.` form. -/
def tmplDoc : RunDoc :=
  { model := none,
    source := some ⟨"file_id", "old"⟩,
    references := some "item.ground_truth",
    input_messages :=
      some { type := some "item_reference", item_reference := some "item.input" } }

/-- The discovered split files of one version directory. -/
def filesC : List (String × String) :=
  [("train", "d/train.jsonl"), ("valid", "d/valid.jsonl"),
   ("eval", "d/eval.jsonl")]

/-- An environment in which every remote call succeeds and the job reaches
`succeeded` on the second re-fetch. -/
def envOk : Env :=
  { uploadRes := fun _ p => .ok ("file-" ++ p),
    createJobRes := .ok jobQ,
    retrieveRes := fun n => if n = 0 then jobQ else jobS,
    eventsRes := .ok 2,
    ckptsRes := .ok 1,
    reportRes := .ok (),
    evalEnable := true,
    dataSrcCfg := some "dsc",
    testCrit := some "tc",
    runTemplate := some tmplDoc,
    createEvalRes := .ok "eval_1",
    createRunRes := .ok "evalrun_1",
    outputItemsRes := .ok 7 }

/-- A retrieval oracle whose job stays queued for two fetches and then
succeeds. -/
def retrieveQQS : Nat → JobObj := fun n => if n < 2 then jobQ else jobS

/-- A declarative document with every required key present whose declared
split ratios sum to `1.7`. -/
def cfgRatioBad : ConfigDoc :=
  { hasDataset := true, hasFineTuning := true, hasEvaluation := true,
    base_dir := some "/data/lang_pairs/en-fr/3_fineTuning/supervised",
    splitRatios := some (7/10, 1/2, 1/2),
    ftHasEnable := true, ftHasBaseModel := true, ftHasSuffixTemplate := true,
    ftHasHyperparameters := true,
    evHasEnable := true, evHasDataSourceConfigPath := true,
    evHasTestingCriteriaPath := true, evHasDataSourceRunPath := true }

/-- `envOk`, but the run-template file is missing. -/
def envNoTemplate : Env := { envOk with runTemplate := none }

/-- `envOk`, but the data-source-config file is missing. -/
def envNoDsc : Env := { envOk with dataSrcCfg := none }

/-- A retrieval oracle whose job never leaves `queued`. -/
def retrieveAlwaysQueued : Nat → JobObj := fun _ => jobQ

/-- The same job once failed. -/
def jobF : JobObj :=
  { id := some "ft1", status := some "failed", model := none }

/-- `envOk`, but the job is already `failed` at creation time. -/
def envFail : Env := { envOk with createJobRes := .ok jobF }

/-- `envOk`, but the validation-split upload raises a transport error. -/
def envUploadFail : Env :=
  { envOk with
    uploadRes := fun t p =>
      if t = "valid" then .error "transport error" else .ok ("file-" ++ p) }

/-- A metrics event with a step, surrounded by non-metric noise. -/
def eventsC10 : List FtEvent :=
  [{ type := some "message", data := none },
   { type := some "metrics",
     data := some { step := some 2, train_loss := some 1,
                    valid_loss := none, full_valid_loss := none } },
   { type := some "metrics",
     data := some { step := some 1, train_loss := some 2,
                    valid_loss := some 3, full_valid_loss := none } }]

/-- A monitoring environment whose event list has step-bearing metrics. -/
def menvOk : MonitorEnv :=
  { retrieve := retrieveQQS, events := eventsC10, checkpointCount := 1 }

/-- A monitoring environment whose event list has no step-bearing metrics
event (one metrics event without a step, one non-metrics event). -/
def menvNoStep : MonitorEnv :=
  { retrieve := retrieveQQS,
    events :=
      [{ type := some "message", data := none },
       { type := some "metrics",
         data := some { step := none, train_loss := some 1,
                        valid_loss := none, full_valid_loss := none } }],
    checkpointCount := 0 }


/-! ## Lemmas about the insertion sorts -/

theorem mem_insertBy {le : α → α → Bool} {x y : α} {l : List α} :
    y ∈ insertBy le x l ↔ y = x ∨ y ∈ l := by
  induction l with
  | nil => simp [insertBy]
  | cons z zs ih =>
    by_cases h : le x z
    · simp [insertBy, h]
    · simp [insertBy, h, ih]
      tauto

theorem insertBy_ne_nil {le : α → α → Bool} {x : α} {l : List α} :
    insertBy le x l ≠ [] := by
  cases l with
  | nil => simp [insertBy]
  | cons z zs => by_cases h : le x z <;> simp [insertBy, h]

theorem mem_sortBy {le : α → α → Bool} {y : α} {l : List α} :
    y ∈ sortBy le l ↔ y ∈ l := by
  induction l with
  | nil => simp [sortBy]
  | cons z zs ih => simp [sortBy, mem_insertBy, ih]

theorem sortBy_eq_nil_iff {le : α → α → Bool} {l : List α} :
    sortBy le l = [] ↔ l = [] := by
  cases l with
  | nil => simp [sortBy]
  | cons z zs => simp [sortBy, insertBy_ne_nil]

/-- Inserting into a list whose last element has the maximal key keeps the
last element's key maximal, now also dominating the inserted element. -/
theorem getLastD_insertBy_key_max (key : α → Nat) (le : α → α → Bool)
    (hT : ∀ a b, le a b = true → key a ≤ key b)
    (hF : ∀ a b, le a b = false → key b ≤ key a) :
    ∀ (l : List α) (x d : α),
      (∀ y ∈ l, key y ≤ key (l.getLastD d)) →
      key x ≤ key ((insertBy le x l).getLastD d) ∧
        ∀ y ∈ l, key y ≤ key ((insertBy le x l).getLastD d) := by
  intro l
  induction l with
  | nil => intro x d _; simp [insertBy]
  | cons z zs ih =>
    intro x d h
    rcases hle : le x z with _ | _
    · have hzs : ∀ y ∈ zs, key y ≤ key (zs.getLastD z) := by
        intro y hy
        have := h y (by simp [hy])
        rwa [List.getLastD_cons] at this
      obtain ⟨h1, h2⟩ := ih x z hzs
      have hstep : insertBy le x (z :: zs) = z :: insertBy le x zs := by
        simp [insertBy, hle]
      have hres : (insertBy le x (z :: zs)).getLastD d
          = (insertBy le x zs).getLastD z := by
        rw [hstep, List.getLastD_cons]
      refine ⟨?_, ?_⟩
      · rw [hres]; exact h1
      · intro y hy
        rw [hres]
        rcases List.mem_cons.mp hy with rfl | hy'
        · exact le_trans (hF x y hle) h1
        · exact h2 y hy'
    · have hz : key z ≤ key ((z :: zs).getLastD d) := h z (by simp)
      have hstep : insertBy le x (z :: zs) = x :: z :: zs := by
        simp [insertBy, hle]
      have hres : (insertBy le x (z :: zs)).getLastD d = (z :: zs).getLastD d := by
        rw [hstep]
        simp only [List.getLastD_cons]
      refine ⟨?_, ?_⟩
      · rw [hres]; exact le_trans (hT x z hle) hz
      · intro y hy; rw [hres]; exact h y hy

/-- The last element of `sortBy le l` dominates the key of every element. -/
theorem sortBy_getLastD_key_max (key : α → Nat) (le : α → α → Bool)
    (hT : ∀ a b, le a b = true → key a ≤ key b)
    (hF : ∀ a b, le a b = false → key b ≤ key a) :
    ∀ (l : List α) (d : α), ∀ x ∈ l, key x ≤ key ((sortBy le l).getLastD d) := by
  intro l
  induction l with
  | nil => simp
  | cons a l ih =>
    intro d x hx
    have hprev : ∀ y ∈ sortBy le l, key y ≤ key ((sortBy le l).getLastD d) :=
      fun y hy => ih d y (mem_sortBy.mp hy)
    obtain ⟨h1, h2⟩ :=
      getLastD_insertBy_key_max key le hT hF (sortBy le l) a d hprev
    rcases List.mem_cons.mp hx with rfl | hx'
    · simpa [sortBy] using h1
    · simpa [sortBy] using h2 x (mem_sortBy.mpr hx')

/-- The last element of a nonempty list is a member. -/
theorem getLastD_mem {l : List α} (d : α) (h : l ≠ []) : l.getLastD d ∈ l := by
  induction l generalizing d with
  | nil => exact absurd rfl h
  | cons a l ih =>
    rw [List.getLastD_cons]
    cases l with
    | nil => simp [List.getLastD]
    | cons b t => exact List.mem_cons_of_mem a (ih a (by simp))

/-! ## Version selection (claim C6) -/

theorem pairLe_fst_le {a b : Nat × String} (h : pairLe a b = true) : a.1 ≤ b.1 := by
  simp only [pairLe, Bool.or_eq_true, Bool.and_eq_true, decide_eq_true_eq] at h
  rcases h with h | ⟨h, _⟩ <;> omega

theorem pairLe_fst_ge {a b : Nat × String} (h : pairLe a b = false) : b.1 ≤ a.1 := by
  simp only [pairLe, Bool.or_eq_false_iff, Bool.and_eq_false_iff,
    decide_eq_false_iff_not] at h
  omega

/-- C6 (counterexample): the zero-config version selection `_auto_version`
does not restrict itself to subdirectories literally named `v<integer>`: on
a root whose only subdirectory is named `7` it succeeds and returns `7`,
although no subdirectory matches `v<integer>` (as witnessed by
`parseVersionName` and by `discover_latest_version_dir` failing on the same
input), contradicting the claim that such a root fails with a not-found
error. -/
theorem auto_version_accepts_bare_integer_dir :
    autoVersion ["7"] = .ok "7" ∧ parseVersionName "7" = none ∧
      discoverLatestVersionDir ["7"] = .error "No v* subfolders" := by
  refine ⟨?_, ?_, ?_⟩ <;> rfl

/-- C6 (amended): `discover_latest_version_dir` considers exactly the
subdirectories literally named `v<integer>` and selects the numerically
greatest, failing with a not-found error exactly when none exists;
`_auto_version` instead considers every subdirectory whose name is all
digits after stripping leading `v` characters and selects the one whose
stripped name denotes the greatest integer, failing exactly when no
subdirectory qualifies. -/
theorem version_selection_spec (dirEntries : List String) :
    (∀ d, discoverLatestVersionDir dirEntries = .ok d →
      d ∈ dirEntries ∧ ∃ n, parseVersionName d = some n ∧
        ∀ e ∈ dirEntries, ∀ m, parseVersionName e = some m → m ≤ n) ∧
    ((∀ e ∈ dirEntries, parseVersionName e = none) ↔
      discoverLatestVersionDir dirEntries = .error "No v* subfolders") ∧
    (∀ v, autoVersion dirEntries = .ok v →
      v ∈ dirEntries ∧ pyIsDigit (pyLstripV v) = true ∧
        ∀ e ∈ dirEntries, pyIsDigit (pyLstripV e) = true →
          digitsToNat (pyLstripV e).toList ≤ digitsToNat (pyLstripV v).toList) ∧
    ((∀ e ∈ dirEntries, pyIsDigit (pyLstripV e) = false) ↔
      autoVersion dirEntries = .error "No v* directories found") := by
  constructor
  · intro d hd
    unfold discoverLatestVersionDir at hd
    set versions := dirEntries.filterMap
      (fun d => (parseVersionName d).map fun n => (n, d)) with hver
    by_cases hemp : versions.isEmpty
    · simp [hemp] at hd
    · simp only [hemp, Bool.false_eq_true, if_false, Except.ok.injEq] at hd
      have hne : versions ≠ [] := by
        intro h; rw [h] at hemp; exact hemp rfl
      have hsne : sortPairs versions ≠ [] := by
        intro h
        exact hne (sortBy_eq_nil_iff.mp h)
      set last := (sortPairs versions).getLastD (0, "") with hlast
      have hmem : last ∈ sortPairs versions := getLastD_mem _ hsne
      have hmem' : last ∈ versions := mem_sortBy.mp hmem
      obtain ⟨a, ha, hfa⟩ := List.mem_filterMap.mp hmem'
      obtain ⟨n, hn, hpair⟩ := Option.map_eq_some'.mp hfa
      have hd2 : d = a := by
        rw [← hd, ← hpair]
      subst hd2
      have hlast1 : last.1 = n := by rw [← hpair]
      refine ⟨ha, n, by rw [← hd, ← hpair] at hn ⊢; exact hn, ?_⟩
      intro e he m hm
      have hin : (m, e) ∈ versions := by
        exact List.mem_filterMap.mpr ⟨e, he, by rw [hm]; rfl⟩
      have := sortBy_getLastD_key_max Prod.fst pairLe
        (fun a b h => pairLe_fst_le h) (fun a b h => pairLe_fst_ge h)
        versions (0, "") (m, e) hin
      rw [← hlast1]
      exact this
  refine ⟨?_, ?_, ?_⟩
  · constructor
    · intro h
      unfold discoverLatestVersionDir
      have : dirEntries.filterMap
          (fun d => (parseVersionName d).map fun n => (n, d)) = [] := by
        rw [List.filterMap_eq_nil_iff]
        intro a ha
        rw [h a ha]; rfl
      simp [this]
    · intro h e he
      unfold discoverLatestVersionDir at h
      by_cases hemp : (dirEntries.filterMap
          (fun d => (parseVersionName d).map fun n => (n, d))).isEmpty
      · rw [List.isEmpty_iff] at hemp
        have := (List.filterMap_eq_nil_iff.mp hemp) e he
        cases hp : parseVersionName e with
        | none => rfl
        | some n => rw [hp] at this; simp at this
      · simp [hemp] at h
  · intro v hv
    unfold autoVersion at hv
    cases hl : (sortByKey (fun d => digitsToNat (pyLstripV d).toList)
        (dirEntries.filter fun d => pyIsDigit (pyLstripV d))).getLast? with
    | none => rw [hl] at hv; simp at hv
    | some w =>
      rw [hl] at hv
      simp only [Except.ok.injEq] at hv
      subst hv
      have hne : sortByKey (fun d => digitsToNat (pyLstripV d).toList)
          (dirEntries.filter fun d => pyIsDigit (pyLstripV d)) ≠ [] := by
        intro h; rw [h] at hl; simp at hl
      have hlastD : (sortByKey (fun d => digitsToNat (pyLstripV d).toList)
          (dirEntries.filter fun d => pyIsDigit (pyLstripV d))).getLastD "" = w := by
        rw [List.getLastD_eq_getLast?, hl]; rfl
      have hmem : w ∈ sortByKey (fun d => digitsToNat (pyLstripV d).toList)
          (dirEntries.filter fun d => pyIsDigit (pyLstripV d)) := by
        rw [← hlastD]; exact getLastD_mem _ hne
      have hmem' : w ∈ dirEntries.filter fun d => pyIsDigit (pyLstripV d) :=
        mem_sortBy.mp hmem
      have hvd := List.mem_filter.mp hmem'
      refine ⟨hvd.1, hvd.2, ?_⟩
      intro e he hpe
      have hin : e ∈ dirEntries.filter fun d => pyIsDigit (pyLstripV d) :=
        List.mem_filter.mpr ⟨he, hpe⟩
      have := sortBy_getLastD_key_max
        (fun d => digitsToNat (pyLstripV d).toList)
        (fun x y => decide (digitsToNat (pyLstripV x).toList
          < digitsToNat (pyLstripV y).toList))
        (fun a b h => le_of_lt (of_decide_eq_true h))
        (fun a b h => le_of_not_lt (of_decide_eq_false h))
        (dirEntries.filter fun d => pyIsDigit (pyLstripV d)) "" e hin
      rw [← hlastD]
      exact this
  · constructor
    · intro h
      unfold autoVersion
      have hfil : dirEntries.filter (fun d => pyIsDigit (pyLstripV d)) = [] := by
        rw [List.filter_eq_nil_iff]
        intro a ha
        rw [h a ha]; simp
      rw [hfil]
      rfl
    · intro h e he
      unfold autoVersion at h
      cases hl : (sortByKey (fun d => digitsToNat (pyLstripV d).toList)
          (dirEntries.filter fun d => pyIsDigit (pyLstripV d))).getLast? with
      | some w => rw [hl] at h; simp at h
      | none =>
        rw [List.getLast?_eq_none_iff] at hl
        have hfil := sortBy_eq_nil_iff.mp hl
        have := List.filter_eq_nil_iff.mp hfil e he
        simpa using this

/-! ## Split-file collection (claim C5) -/

theorem findSplit_ok_iff {dir typ f : String} {kws : List String}
    {entries : List String} :
    findSplit dir entries typ kws = .ok f ↔
      entries.filter (splitPatternMatch kws) = [f] := by
  unfold findSplit
  rcases h : entries.filter (splitPatternMatch kws) with _ | ⟨a, _ | ⟨b, l⟩⟩ <;>
    simp

theorem findSplit_missing_iff {dir typ s d : String} {kws : List String}
    {entries : List String} :
    findSplit dir entries typ kws = .error (.missing s d) ↔
      s = typ ∧ d = dir ∧ entries.filter (splitPatternMatch kws) = [] := by
  unfold findSplit
  rcases h : entries.filter (splitPatternMatch kws) with _ | ⟨a, _ | ⟨b, l⟩⟩ <;>
    simp [eq_comm]

theorem findSplit_multiple_iff {dir typ s d : String} {kws fs : List String}
    {entries : List String} :
    findSplit dir entries typ kws = .error (.multiple s d fs) ↔
      s = typ ∧ d = dir ∧ entries.filter (splitPatternMatch kws) = fs ∧
        2 ≤ fs.length := by
  unfold findSplit
  rcases h : entries.filter (splitPatternMatch kws) with _ | ⟨a, _ | ⟨b, l⟩⟩
  · constructor
    · intro h'; simp at h'
    · rintro ⟨_, _, rfl, hlen⟩; simp at hlen
  · constructor
    · intro h'; simp at h'
    · rintro ⟨_, _, rfl, hlen⟩; simp at hlen
  · constructor
    · intro h'
      simp only [Except.error.injEq, CollectError.multiple.injEq] at h'
      obtain ⟨h1, h2, h3⟩ := h'
      exact ⟨h1.symm, h2.symm, h3, by rw [← h3]; simp⟩
    · rintro ⟨rfl, rfl, rfl, _⟩; rfl

/-- C5: within a version directory, `collect_dataset_files` selects exactly
one file per split by case-insensitive keyword matching restricted to
`.jsonl` entries: it succeeds exactly when each split's pattern matches
exactly one entry (returning those three files, joined to the directory);
zero matches for a split raises an error naming that split and the
directory; two or more matches raises an error naming the split and the
directory and listing all the matches. -/
theorem collect_dataset_files_spec (dir : String) (entries : List String) :
    (∀ m, collectDatasetFiles dir entries = .ok m →
      ∃ t v e,
        entries.filter (splitPatternMatch ["train", "training"]) = [t] ∧
        entries.filter (splitPatternMatch ["valid", "validation"]) = [v] ∧
        entries.filter (splitPatternMatch ["eval", "evaluation"]) = [e] ∧
        m = [("train", pathJoin dir t), ("valid", pathJoin dir v),
             ("eval", pathJoin dir e)]) ∧
    (∀ s d, collectDatasetFiles dir entries = .error (.missing s d) →
      d = dir ∧ ∃ kws, (s, kws) ∈ splitKeywords ∧
        entries.filter (splitPatternMatch kws) = []) ∧
    (∀ s d fs, collectDatasetFiles dir entries = .error (.multiple s d fs) →
      d = dir ∧ 2 ≤ fs.length ∧ ∃ kws, (s, kws) ∈ splitKeywords ∧
        entries.filter (splitPatternMatch kws) = fs) ∧
    ((∃ m, collectDatasetFiles dir entries = .ok m) ↔
      (entries.filter (splitPatternMatch ["train", "training"])).length = 1 ∧
      (entries.filter (splitPatternMatch ["valid", "validation"])).length = 1 ∧
      (entries.filter (splitPatternMatch ["eval", "evaluation"])).length = 1) := by
  refine ⟨?_, ?_, ?_, ?_⟩
  · intro m hm
    unfold collectDatasetFiles at hm
    rcases h1 : findSplit dir entries "train" ["train", "training"] with err1 | t <;>
      rw [h1] at hm
    · exact absurd hm (by simp)
    rcases h2 : findSplit dir entries "valid" ["valid", "validation"] with err2 | v <;>
      rw [h2] at hm
    · exact absurd hm (by simp)
    rcases h3 : findSplit dir entries "eval" ["eval", "evaluation"] with err3 | e <;>
      rw [h3] at hm
    · exact absurd hm (by simp)
    simp only [Except.ok.injEq] at hm
    exact ⟨t, v, e, findSplit_ok_iff.mp h1, findSplit_ok_iff.mp h2,
      findSplit_ok_iff.mp h3, hm.symm⟩
  · intro s d hs
    unfold collectDatasetFiles at hs
    rcases h1 : findSplit dir entries "train" ["train", "training"] with err1 | t <;>
      rw [h1] at hs
    · simp only [Except.error.injEq] at hs
      subst hs
      obtain ⟨hsy, hdd, hfil⟩ := findSplit_missing_iff.mp h1
      exact ⟨hdd, ["train", "training"], by simp [splitKeywords, hsy], hfil⟩
    rcases h2 : findSplit dir entries "valid" ["valid", "validation"] with err2 | v <;>
      rw [h2] at hs
    · simp only [Except.error.injEq] at hs
      subst hs
      obtain ⟨hsy, hdd, hfil⟩ := findSplit_missing_iff.mp h2
      exact ⟨hdd, ["valid", "validation"], by simp [splitKeywords, hsy], hfil⟩
    rcases h3 : findSplit dir entries "eval" ["eval", "evaluation"] with err3 | e <;>
      rw [h3] at hs
    · simp only [Except.error.injEq] at hs
      subst hs
      obtain ⟨hsy, hdd, hfil⟩ := findSplit_missing_iff.mp h3
      exact ⟨hdd, ["eval", "evaluation"], by simp [splitKeywords, hsy], hfil⟩
    exact absurd hs (by simp)
  · intro s d fs hs
    unfold collectDatasetFiles at hs
    rcases h1 : findSplit dir entries "train" ["train", "training"] with err1 | t <;>
      rw [h1] at hs
    · simp only [Except.error.injEq] at hs
      subst hs
      obtain ⟨hsy, hdd, hfil, hlen⟩ := findSplit_multiple_iff.mp h1
      exact ⟨hdd, hlen, ["train", "training"], by simp [splitKeywords, hsy], hfil⟩
    rcases h2 : findSplit dir entries "valid" ["valid", "validation"] with err2 | v <;>
      rw [h2] at hs
    · simp only [Except.error.injEq] at hs
      subst hs
      obtain ⟨hsy, hdd, hfil, hlen⟩ := findSplit_multiple_iff.mp h2
      exact ⟨hdd, hlen, ["valid", "validation"], by simp [splitKeywords, hsy], hfil⟩
    rcases h3 : findSplit dir entries "eval" ["eval", "evaluation"] with err3 | e <;>
      rw [h3] at hs
    · simp only [Except.error.injEq] at hs
      subst hs
      obtain ⟨hsy, hdd, hfil, hlen⟩ := findSplit_multiple_iff.mp h3
      exact ⟨hdd, hlen, ["eval", "evaluation"], by simp [splitKeywords, hsy], hfil⟩
    exact absurd hs (by simp)
  · constructor
    · rintro ⟨m, hm⟩
      unfold collectDatasetFiles at hm
      rcases h1 : findSplit dir entries "train" ["train", "training"] with err1 | t <;>
        rw [h1] at hm
      · exact absurd hm (by simp)
      rcases h2 : findSplit dir entries "valid" ["valid", "validation"] with err2 | v <;>
        rw [h2] at hm
      · exact absurd hm (by simp)
      rcases h3 : findSplit dir entries "eval" ["eval", "evaluation"] with err3 | e <;>
        rw [h3] at hm
      · exact absurd hm (by simp)
      refine ⟨?_, ?_, ?_⟩ <;>
        simp [findSplit_ok_iff.mp h1, findSplit_ok_iff.mp h2,
          findSplit_ok_iff.mp h3]
    · rintro ⟨l1, l2, l3⟩
      obtain ⟨t, ht⟩ := List.length_eq_one.mp l1
      obtain ⟨v, hv⟩ := List.length_eq_one.mp l2
      obtain ⟨e, he⟩ := List.length_eq_one.mp l3
      refine ⟨[("train", pathJoin dir t), ("valid", pathJoin dir v),
        ("eval", pathJoin dir e)], ?_⟩
      unfold collectDatasetFiles
      rw [findSplit_ok_iff.mpr ht, findSplit_ok_iff.mpr hv,
        findSplit_ok_iff.mpr he]

/-- Witness for C6: on a root with subdirectories `v1`, `v2`, `v3` the
selection returns `v3`, which carries the greatest version integer. -/
theorem version_selection_spec_witness :
    "v3" ∈ ["v1", "v2", "v3"] ∧ ∃ n, parseVersionName "v3" = some n ∧
      ∀ e ∈ ["v1", "v2", "v3"], ∀ m, parseVersionName e = some m → m ≤ n :=
  (version_selection_spec ["v1", "v2", "v3"]).1 "v3" (by rfl)

/-- Witness for C5: a directory with one file per split resolves to the
three joined paths. -/
theorem collect_dataset_files_spec_witness :
    collectDatasetFiles "d" ["train_en.jsonl", "valid_en.jsonl", "eval_en.jsonl"]
        = .ok [("train", "d/train_en.jsonl"), ("valid", "d/valid_en.jsonl"),
               ("eval", "d/eval_en.jsonl")] ∧
      ∃ t v e,
        (["train_en.jsonl", "valid_en.jsonl", "eval_en.jsonl"].filter
          (splitPatternMatch ["train", "training"])) = [t] ∧
        (["train_en.jsonl", "valid_en.jsonl", "eval_en.jsonl"].filter
          (splitPatternMatch ["valid", "validation"])) = [v] ∧
        (["train_en.jsonl", "valid_en.jsonl", "eval_en.jsonl"].filter
          (splitPatternMatch ["eval", "evaluation"])) = [e] ∧
        [("train", "d/train_en.jsonl"), ("valid", "d/valid_en.jsonl"),
         ("eval", "d/eval_en.jsonl")]
          = [("train", pathJoin "d" t), ("valid", pathJoin "d" v),
             ("eval", pathJoin "d" e)] :=
  ⟨by rfl,
   (collect_dataset_files_spec "d"
      ["train_en.jsonl", "valid_en.jsonl", "eval_en.jsonl"]).1
     [("train", "d/train_en.jsonl"), ("valid", "d/valid_en.jsonl"),
      ("eval", "d/eval_en.jsonl")] (by rfl)⟩

theorem findFile_first (kws : List String) :
    ∀ (entries : List String) (f : String),
      findFile entries kws = .ok f →
      ∃ l1 l2, entries = l1 ++ f :: l2 ∧ findFileMatch kws f = true ∧
        ∀ e ∈ l1, findFileMatch kws e = false := by
  intro entries
  induction entries with
  | nil => intro f h; simp [findFile] at h
  | cons a rest ih =>
    intro f h
    unfold findFile at h
    cases hm : findFileMatch kws a with
    | true =>
      rw [if_pos hm] at h
      simp only [Except.ok.injEq] at h
      subst h
      exact ⟨[], rest, rfl, hm, by simp⟩
    | false =>
      rw [if_neg (by simp [hm])] at h
      obtain ⟨l1, l2, heq, hf, hnone⟩ := ih f h
      refine ⟨a :: l1, l2, by rw [heq]; rfl, hf, ?_⟩
      intro e he
      rcases List.mem_cons.mp he with rfl | he2
      · exact hm
      · exact hnone e he2

theorem findFile_none_iff (kws : List String) :
    ∀ entries : List String,
      (∀ e ∈ entries, findFileMatch kws e = false) ↔
        findFile entries kws = .error "No .jsonl matching keywords" := by
  intro entries
  induction entries with
  | nil => simp [findFile]
  | cons a rest ih =>
    constructor
    · intro h
      unfold findFile
      rw [if_neg (by simp [h a (by simp)])]
      exact ih.mp fun e he => h e (by simp [he])
    · intro h e he
      unfold findFile at h
      cases hm : findFileMatch kws a with
      | true => rw [if_pos hm] at h; simp at h
      | false =>
        rw [if_neg (by simp [hm])] at h
        rcases List.mem_cons.mp he with rfl | he2
        · exact hm
        · exact (ih.mpr h) e he2

/-- C5 (counterexample): the zero-config resolver's `_find_file` does not
raise on duplicate split matches: on a directory holding two files that
both match the train keywords it silently returns the first, contradicting
the claim that two or more matches for a split raise a fatal error listing
the matches. -/
theorem find_file_ignores_duplicate_matches :
    findFile ["train_a.jsonl", "train_b.jsonl"] ["train", "training"]
      = .ok "train_a.jsonl" ∧
    findFileMatch ["train", "training"] "train_a.jsonl" = true ∧
    findFileMatch ["train", "training"] "train_b.jsonl" = true := by
  refine ⟨by rfl, by decide, by decide⟩

/-- C5 (amended): the automatic pipeline's `collect_dataset_files` selects
exactly one file per split by case-insensitive keyword matching restricted
to `.jsonl` entries — succeeding exactly when each split's pattern matches
exactly one entry, raising an error naming the split and directory on zero
matches, and an error naming the split and directory and listing all the
matches on two or more; the zero-config resolver's `_find_file` instead
returns the first matching `.jsonl` entry (never raising on duplicates)
and raises only when no entry matches the split's keywords. -/
theorem split_file_selection_spec (dir : String) (entries kws : List String) :
    (∀ m, collectDatasetFiles dir entries = .ok m →
      ∃ t v e,
        entries.filter (splitPatternMatch ["train", "training"]) = [t] ∧
        entries.filter (splitPatternMatch ["valid", "validation"]) = [v] ∧
        entries.filter (splitPatternMatch ["eval", "evaluation"]) = [e] ∧
        m = [("train", pathJoin dir t), ("valid", pathJoin dir v),
             ("eval", pathJoin dir e)]) ∧
    (∀ s d, collectDatasetFiles dir entries = .error (.missing s d) →
      d = dir ∧ ∃ kws2, (s, kws2) ∈ splitKeywords ∧
        entries.filter (splitPatternMatch kws2) = []) ∧
    (∀ s d fs, collectDatasetFiles dir entries = .error (.multiple s d fs) →
      d = dir ∧ 2 ≤ fs.length ∧ ∃ kws2, (s, kws2) ∈ splitKeywords ∧
        entries.filter (splitPatternMatch kws2) = fs) ∧
    ((∃ m, collectDatasetFiles dir entries = .ok m) ↔
      (entries.filter (splitPatternMatch ["train", "training"])).length = 1 ∧
      (entries.filter (splitPatternMatch ["valid", "validation"])).length = 1 ∧
      (entries.filter (splitPatternMatch ["eval", "evaluation"])).length = 1) ∧
    (∀ f, findFile entries kws = .ok f →
      ∃ l1 l2, entries = l1 ++ f :: l2 ∧ findFileMatch kws f = true ∧
        ∀ e ∈ l1, findFileMatch kws e = false) ∧
    ((∀ e ∈ entries, findFileMatch kws e = false) ↔
      findFile entries kws = .error "No .jsonl matching keywords") :=
  ⟨(collect_dataset_files_spec dir entries).1,
   (collect_dataset_files_spec dir entries).2.1,
   (collect_dataset_files_spec dir entries).2.2.1,
   (collect_dataset_files_spec dir entries).2.2.2,
   findFile_first kws entries,
   findFile_none_iff kws entries⟩

/-- Witness for C5: on the one-file-per-split directory the pipeline
selector returns the three joined paths, and `_find_file` returns the
first (sole) train match. -/
theorem split_file_selection_spec_witness :
    (∃ m, collectDatasetFiles "d"
      ["train_en.jsonl", "valid_en.jsonl", "eval_en.jsonl"] = .ok m) ∧
    (∃ l1 l2, (["train_en.jsonl", "valid_en.jsonl", "eval_en.jsonl"] :
        List String) = l1 ++ "train_en.jsonl" :: l2 ∧
      findFileMatch ["train", "training"] "train_en.jsonl" = true ∧
      ∀ e ∈ l1, findFileMatch ["train", "training"] e = false) :=
  ⟨(split_file_selection_spec "d"
      ["train_en.jsonl", "valid_en.jsonl", "eval_en.jsonl"]
      ["train", "training"]).2.2.2.1.mpr (by decide),
   (split_file_selection_spec "d"
      ["train_en.jsonl", "valid_en.jsonl", "eval_en.jsonl"]
      ["train", "training"]).2.2.2.2.1 "train_en.jsonl" (by rfl)⟩

/-! ## Poll loop (claim C3) -/

/-- C3: both poll loops return only on a terminal status.  For
`_poll_job_until_done`: any returned snapshot has status `succeeded`,
`failed` or `cancelled`, and a job whose fetched status stays in
`queued`/`running` keeps the loop re-fetching (no return) for any number of
iterations.  The pipeline wait loop (lines 129-136) satisfies the same two
properties. -/
theorem poll_loop_returns_only_terminal :
    (∀ (retrieve : Nat → JobObj) (fuel n : Nat) (j : JobObj),
      pollJobUntilDone retrieve fuel n = some j →
        j.status = some "succeeded" ∨ j.status = some "failed" ∨
          j.status = some "cancelled") ∧
    (∀ (retrieve : Nat → JobObj) (fuel n : Nat),
      (∀ k, (retrieve k).status = some "queued" ∨
        (retrieve k).status = some "running") →
      pollJobUntilDone retrieve fuel n = none) ∧
    (∀ (env : Env) (fuel n : Nat) (job : JobObj) (st : String)
        (tr : List Effect) (j : JobObj) (s : String),
      pollLoop env fuel n job st = (tr, some (j, s)) →
        s = "succeeded" ∨ s = "failed" ∨ s = "cancelled") ∧
    (∀ (env : Env) (fuel n : Nat) (job : JobObj) (st : String),
      (st = "queued" ∨ st = "running") →
      (∀ k, (env.retrieveRes k).status = some "queued" ∨
        (env.retrieveRes k).status = some "running") →
      (pollLoop env fuel n job st).2 = none) := by
  have hterm : ∀ s : String, terminalStates.contains s = true →
      s = "succeeded" ∨ s = "failed" ∨ s = "cancelled" := by
    intro s hs
    simp only [terminalStates, List.contains_eq_any_beq, List.any_cons,
      List.any_nil, Bool.or_eq_true, beq_iff_eq] at hs
    tauto
  have hnonterm : ∀ s : String, (s = "queued" ∨ s = "running") →
      terminalStates.contains s = false := by
    rintro s (rfl | rfl) <;> rfl
  refine ⟨?_, ?_, ?_, ?_⟩
  · intro retrieve fuel
    induction fuel with
    | zero => intro n j h; simp [pollJobUntilDone] at h
    | succ f ih =>
      intro n j h
      simp only [pollJobUntilDone] at h
      cases hs : (retrieve n).status with
      | none => simp only [hs] at h; exact ih (n + 1) j h
      | some s =>
        simp only [hs] at h
        by_cases ht : terminalStates.contains s = true
        · rw [if_pos ht] at h
          cases h
          rw [hs]
          rcases hterm s ht with h' | h' | h' <;> simp [h']
        · rw [if_neg ht] at h
          exact ih (n + 1) j h
  · intro retrieve fuel
    induction fuel with
    | zero => intro n _; simp [pollJobUntilDone]
    | succ f ih =>
      intro n hq
      simp only [pollJobUntilDone]
      rcases hq n with hs | hs <;> simp only [hs] <;>
        rw [if_neg (by decide)] <;> exact ih (n + 1) hq
  · intro env fuel
    induction fuel with
    | zero =>
      intro n job st tr j s h
      simp only [pollLoop] at h
      split at h
      · rw [Prod.ext_iff] at h
        obtain ⟨-, h2⟩ := h
        simp only [Option.some.injEq, Prod.ext_iff] at h2
        obtain ⟨-, rfl⟩ := h2
        rename_i hcond
        exact hterm st hcond
      · rw [Prod.ext_iff] at h
        simp at h
    | succ f ih =>
      intro n job st tr j s h
      simp only [pollLoop] at h
      split at h
      · rw [Prod.ext_iff] at h
        obtain ⟨-, h2⟩ := h
        simp only [Option.some.injEq, Prod.ext_iff] at h2
        obtain ⟨-, rfl⟩ := h2
        rename_i hcond
        exact hterm st hcond
      · rcases hrec : pollLoop env f (n + 1) (env.retrieveRes n)
            ((env.retrieveRes n).status.getD "unknown") with ⟨tr2, res⟩
        rw [hrec] at h
        rw [Prod.ext_iff] at h
        obtain ⟨-, h2⟩ := h
        simp only [] at h2
        rw [show res = some (j, s) from h2] at hrec
        exact ih (n + 1) (env.retrieveRes n)
          ((env.retrieveRes n).status.getD "unknown") tr2 j s hrec
  · intro env fuel
    induction fuel with
    | zero =>
      intro n job st hst _
      simp only [pollLoop]
      rw [if_neg (by rw [hnonterm st hst]; simp)]
    | succ f ih =>
      intro n job st hst hq
      simp only [pollLoop]
      rw [if_neg (by rw [hnonterm st hst]; simp)]
      rcases hrec : pollLoop env f (n + 1) (env.retrieveRes n)
          ((env.retrieveRes n).status.getD "unknown") with ⟨tr2, res⟩
      have hst2 : (env.retrieveRes n).status.getD "unknown" = "queued" ∨
          (env.retrieveRes n).status.getD "unknown" = "running" := by
        rcases hq n with hs | hs <;> rw [hs] <;> simp
      have hres := ih (n + 1) (env.retrieveRes n)
        ((env.retrieveRes n).status.getD "unknown") hst2 hq
      rw [hrec] at hres
      simpa using hres

/-- Witness for C3: a job queued for two fetches then succeeded is returned
with a terminal status; a job that never leaves `queued` is still being
polled after seven fetches. -/
theorem poll_loop_returns_only_terminal_witness :
    (jobS.status = some "succeeded" ∨ jobS.status = some "failed" ∨
      jobS.status = some "cancelled") ∧
    pollJobUntilDone retrieveAlwaysQueued 7 0 = none :=
  ⟨poll_loop_returns_only_terminal.1 retrieveQQS 5 0 jobS (by rfl),
   poll_loop_returns_only_terminal.2.1 retrieveAlwaysQueued 7 0
     (fun _ => Or.inl (by rfl))⟩

/-! ## Zero-config suffix synthesis (claim C9) -/

theorem listContainsSub_of_prefix {pat s : List Char}
    (h : pat.isPrefixOf s = true) : listContainsSub pat s = true := by
  cases s with
  | nil => simpa [listContainsSub] using h
  | cons c cs => simp [listContainsSub, h]

theorem listContainsSub_append_left (pat s : List Char)
    (h : listContainsSub pat s = true) :
    ∀ l1 : List Char, listContainsSub pat (l1 ++ s) = true := by
  intro l1
  induction l1 with
  | nil => simpa using h
  | cons a t ih => simp [listContainsSub, ih]

/-- A string occurs in any catenation that embeds it whole: the pipeline
suffix always contains the raw version component it was formatted with. -/
theorem pyContains_pipelineSuffix (lang_pair version method : String) :
    pyContains (pipelineSuffix lang_pair version method) version = true := by
  unfold pyContains pipelineSuffix defaultSuffixFormat
  show listContainsSub version.data
    ((pyUpper lang_pair ++ "-translator-" ++ version ++ "-"
      ++ method).data) = true
  simp only [String.data_append, List.append_assoc]
  refine listContainsSub_append_left version.data _ ?_ _
  refine listContainsSub_append_left version.data _ ?_ _
  exact listContainsSub_of_prefix
    (List.isPrefixOf_iff_prefix.mpr (List.prefix_append _ _))

/-- C9 (counterexample): for the discovered version directory `v7` in
zero-config mode, the suffix the pipeline actually formats and submits
with the job — rebuilt in `run_automatic_pipeline` (lines 105-112) from
the default template that `_package_auto_config` passes along, with the
raw directory name and an upper-cased lang pair — contains the raw `v7`,
not only the stripped `7` that `_build_ft_config`'s unused `_autobuild`
suffix carries; this contradicts the claim that the zero-config suffix
contains the stripped numeric version and not the raw directory name. -/
theorem pipeline_suffix_keeps_raw_version :
    pipelineSuffix "en-fr" "v7" "supervised"
      = "EN-FR-translator-v7-supervised" ∧
    pyContains (pipelineSuffix "en-fr" "v7" "supervised") "v7" = true ∧
    buildFtSuffix "en-fr" "v7" "supervised"
      = "en-fr-translator-7-supervised" ∧
    pipelineSuffix "en-fr" "v7" "supervised"
      ≠ buildFtSuffix "en-fr" "v7" "supervised" := by
  refine ⟨by rfl, by rfl, by rfl, by decide⟩

/-- C9 (amended): in zero-config mode the Config Resolver's
`_build_ft_config` synthesizes the `_autobuild` suffix by substituting
into the default template the lang pair, the version with its leading
version marker stripped (`v7` contributes `7`), and the method; but
`run_automatic_pipeline` recomputes the suffix it actually submits from
the same default template with the raw version directory name (and an
upper-cased lang pair), so for every discovered version directory the
submitted suffix contains the raw directory name, while only the unused
resolver-synthesized suffix carries the stripped numeric form. -/
theorem zero_config_suffix_strips_version_marker :
    (∀ (lang_pair method ds : String), ds.toList ≠ [] →
      (∀ c ∈ ds.toList, c.isDigit = true) →
      buildFtSuffix lang_pair ("v" ++ ds) method =
        lang_pair ++ "-translator-" ++ ds ++ "-" ++ method) ∧
    (∀ lang_pair version method : String,
      pipelineSuffix lang_pair version method =
        pyUpper lang_pair ++ "-translator-" ++ version ++ "-" ++ method) ∧
    (∀ lang_pair version method : String,
      pyContains (pipelineSuffix lang_pair version method) version = true) ∧
    buildFtSuffix "en-fr" "v7" "supervised" = "en-fr-translator-7-supervised" ∧
    pyContains (buildFtSuffix "en-fr" "v7" "supervised") "v7" = false ∧
    pyContains (buildFtSuffix "en-fr" "v7" "supervised") "7" = true ∧
    pipelineSuffix "en-fr" "v7" "supervised"
      = "EN-FR-translator-v7-supervised" ∧
    pyContains (pipelineSuffix "en-fr" "v7" "supervised") "v7" = true := by
  refine ⟨?_, fun _ _ _ => rfl, pyContains_pipelineSuffix,
    by rfl, by rfl, by rfl, by rfl, by rfl⟩
  intro lang_pair method ds hne hdig
  have hstrip : pyLstripV ("v" ++ ds) = ds := by
    have hv : ("v" ++ ds).toList = 'v' :: ds.toList := rfl
    unfold pyLstripV
    rw [hv, List.dropWhile_cons, if_pos (by simp)]
    cases hl : ds.toList with
    | nil => exact absurd hl hne
    | cons c t =>
      have hc : c.isDigit = true := hdig c (by rw [hl]; simp)
      have hcv : c ≠ 'v' := by
        intro hcv; rw [hcv] at hc; exact absurd hc (by decide)
      rw [List.dropWhile_cons, if_neg (by simpa using hcv), ← hl]
      rfl
  unfold buildFtSuffix
  rw [hstrip]
  rfl

/-- Witness for C9: the theorem instantiated at the `en-fr` / `v7` /
`supervised` directory of Scenario A. -/
theorem zero_config_suffix_strips_version_marker_witness :
    buildFtSuffix "en-fr" ("v" ++ "7") "supervised" =
      "en-fr" ++ "-translator-" ++ "7" ++ "-" ++ "supervised" :=
  zero_config_suffix_strips_version_marker.1 "en-fr" "supervised" "7"
    (by decide) (by decide)

/-! ## Config validation (claim C2) -/

/-- C2 (counterexample): a declarative document declaring split ratios
`0.7`, `0.5`, `0.5` — sum `1.7 > 1.0` — with every required key present
passes `_validate_schema`: validation never raises on ratio sums,
contradicting the claim that such documents are rejected. -/
theorem validate_schema_accepts_ratio_sum_above_one :
    cfgRatioBad.splitRatios = some (7/10, 1/2, 1/2) ∧
    (7/10 + 1/2 + 1/2 : ℚ) > 1 ∧
    validateSchema (fun _ => true) cfgRatioBad = .ok () := by
  refine ⟨rfl, by norm_num, rfl⟩

set_option maxHeartbeats 2000000 in
/-- C2 (amended): `_validate_schema` performs only the required-key
presence checks (and the `base_dir` directory check); its verdict is
invariant under changing the declared split ratios, and it accepts a
document exactly when the required keys are present and `base_dir` names a
directory — regardless of what the ratios sum to. -/
theorem validate_schema_checks_only_required_keys :
    (∀ (isDir : String → Bool) (cfg : ConfigDoc) (r r' : Option (ℚ × ℚ × ℚ)),
      validateSchema isDir { cfg with splitRatios := r } =
        validateSchema isDir { cfg with splitRatios := r' }) ∧
    (∀ (isDir : String → Bool) (cfg : ConfigDoc),
      validateSchema isDir cfg = .ok () ↔
        (cfg.hasDataset = true ∧ cfg.hasFineTuning = true ∧
         cfg.hasEvaluation = true ∧
         (∃ d, cfg.base_dir = some d ∧ isDir d = true) ∧
         cfg.ftHasEnable = true ∧ cfg.ftHasBaseModel = true ∧
         cfg.ftHasSuffixTemplate = true ∧ cfg.ftHasHyperparameters = true ∧
         cfg.evHasEnable = true ∧ cfg.evHasDataSourceConfigPath = true ∧
         cfg.evHasTestingCriteriaPath = true ∧
         cfg.evHasDataSourceRunPath = true)) := by
  constructor
  · intro isDir cfg r r'
    rfl
  · intro isDir cfg
    unfold validateSchema
    constructor
    · intro h
      split_ifs at h with h1 h2 h3 h4 h5 h6 h7 h8 h9 h10 <;> try simp at h
      simp at h1
      have hbd : ∃ d, cfg.base_dir = some d ∧ isDir d = true := by
        cases hb : cfg.base_dir with
        | none => rw [hb] at h2; simp at h2
        | some d =>
          rw [hb] at h2
          simp at h2
          exact ⟨d, rfl, h2⟩
      simp at h3 h4 h5 h6 h7 h8 h9 h10
      exact ⟨h1.1.1, h1.1.2, h1.2, hbd, h3, h4, h5, h6, h7, h8, h9, h10⟩
    · rintro ⟨h1, h2, h3, ⟨d, hd, hdi⟩, h4, h5, h6, h7, h8, h9, h10, h11⟩
      simp [h1, h2, h3, hd, hdi, h4, h5, h6, h7, h8, h9, h10, h11]

/-- Witness for C2: the amended theorem applied to the concrete document
with over-unit ratio sum and an all-directories filesystem oracle. -/
theorem validate_schema_checks_only_required_keys_witness :
    validateSchema (fun _ => true) cfgRatioBad = .ok () :=
  (validate_schema_checks_only_required_keys.2 (fun _ => true) cfgRatioBad).mpr
    ⟨rfl, rfl, rfl,
     ⟨"/data/lang_pairs/en-fr/3_fineTuning/supervised", rfl, rfl⟩,
     rfl, rfl, rfl, rfl, rfl, rfl, rfl, rfl⟩

/-! ## Metrics extraction (claim C10) -/

/-- C10: `_metrics_df` builds its record list from exactly the events of
type `metrics` carrying a `step`; when that list is empty the frame has no
`step` column and `sort_values` raises `KeyError` — so `monitor_and_report`
propagates the exception after fetching but before writing any artifact.
With at least one step-bearing metrics event, the result is exactly the
extracted rows, sorted ascending by `step`. -/
theorem metrics_table_extraction_spec :
    (∀ events : List FtEvent, metricsRecords events = [] ↔
      (∀ evt ∈ events, evt.type = some "metrics" →
        (evt.data.getD ⟨none, none, none, none⟩).step = none)) ∧
    (∀ events : List FtEvent,
      metricsDf events = .error "KeyError: step" ↔ metricsRecords events = []) ∧
    (∀ (events : List FtEvent) (rows : List MetricsRow),
      metricsDf events = .ok rows →
        rows.Perm (metricsRecords events) ∧ rows.Sorted stepLe) ∧
    (∀ events : List FtEvent, metricsRecords events ≠ [] →
      metricsDf events = .ok (sortRowsByStep (metricsRecords events))) ∧
    (∀ (menv : MonitorEnv) (fuel : Nat) (tr : List MEffect)
        (r : Except String (List MetricsRow)),
      metricsRecords menv.events = [] →
      monitorAndReport menv fuel = some (tr, r) →
        r = .error "KeyError: step" ∧
        ∀ ef ∈ tr, ef = MEffect.fetchJob ∨ ef = MEffect.fetchEvents ∨
          ef = MEffect.fetchCheckpoints) := by
  refine ⟨?_, ?_, ?_, ?_, ?_⟩
  · intro events
    rw [metricsRecords, List.filterMap_eq_nil_iff]
    constructor
    · intro h evt hmem htype
      have h' := h evt hmem
      rw [if_pos htype] at h'
      cases hstep : (evt.data.getD ⟨none, none, none, none⟩).step with
      | none => rfl
      | some st => simp only [hstep] at h'; exact absurd h' (by simp)
    · intro h evt hmem
      by_cases htype : evt.type = some "metrics"
      · rw [if_pos htype]
        simp only [h evt hmem htype]
      · rw [if_neg htype]
  · intro events
    constructor
    · intro h
      by_cases he : (metricsRecords events).isEmpty
      · exact List.isEmpty_iff.mp he
      · simp only [metricsDf, if_neg he] at h
        exact absurd h (by simp)
    · intro h
      simp only [metricsDf, h]
      rfl
  · intro events rows h
    by_cases he : (metricsRecords events).isEmpty
    · simp only [metricsDf, if_pos he] at h
      exact absurd h (by simp)
    · simp only [metricsDf, if_neg he, Except.ok.injEq] at h
      subst h
      exact ⟨List.perm_insertionSort stepLe (metricsRecords events),
        List.sorted_insertionSort stepLe (metricsRecords events)⟩
  · intro events hne
    simp only [metricsDf]
    rw [if_neg (fun h => hne (List.isEmpty_iff.mp h))]
  · intro menv fuel tr r hrec h
    have herr : metricsDf menv.events = .error "KeyError: step" := by
      simp only [metricsDf, hrec]
      rfl
    unfold monitorAndReport at h
    cases hp : pollJobUntilDone menv.retrieve fuel 0 with
    | none => rw [hp] at h; simp at h
    | some job =>
      rw [hp, herr] at h
      simp only [Option.some.injEq, Prod.mk.injEq] at h
      obtain ⟨htr, hr⟩ := h
      subst htr
      refine ⟨hr.symm, ?_⟩
      intro ef hef
      simp only [List.mem_cons, List.not_mem_nil, or_false] at hef
      tauto

/-- Witness for C10: on an event list with two step-bearing metrics events
the extraction succeeds with the sorted rows; on an event list whose only
metrics event has no step it raises `KeyError`, and `monitor_and_report`
ends in that error with no artifact written. -/
theorem metrics_table_extraction_spec_witness :
    metricsDf eventsC10 = .ok (sortRowsByStep (metricsRecords eventsC10)) ∧
    metricsDf menvNoStep.events = .error "KeyError: step" ∧
    .error "KeyError: step"
      = (.error "KeyError: step" : Except String (List MetricsRow)) :=
  ⟨metrics_table_extraction_spec.2.2.2.1 eventsC10 (by decide),
   (metrics_table_extraction_spec.2.1 menvNoStep.events).mpr (by decide),
   (metrics_table_extraction_spec.2.2.2.2 menvNoStep 5
      [.fetchJob, .fetchEvents, .fetchCheckpoints] (.error "KeyError: step")
      (by decide) (by rfl)).1 ▸ rfl⟩

/-! ## Orchestrator trace lemmas -/

theorem stripItemRef_item_append (rest : String) :
    stripItemRef ("item." ++ rest) = rest := by
  have hdata : ("item." ++ rest).toList
      = 'i' :: 't' :: 'e' :: 'm' :: '.' :: rest.toList := by
    show ("item." ++ rest).data = 'i' :: 't' :: 'e' :: 'm' :: '.' :: rest.data
    rw [String.data_append]
    rfl
  unfold stripItemRef pyStartsWith
  rw [if_pos ?hpre]
  case hpre =>
    rw [hdata]
    show List.isPrefixOf ('i' :: 't' :: 'e' :: 'm' :: '.' :: [])
      ('i' :: 't' :: 'e' :: 'm' :: '.' :: rest.toList) = true
    simp [List.isPrefixOf]
  · rw [hdata]
    show String.mk (dropThroughFirst '.'
      ('i' :: 't' :: 'e' :: 'm' :: '.' :: rest.toList)) = rest
    simp [dropThroughFirst]

theorem uploadPhase_trace_uploads (env : Env) :
    ∀ (l : List (String × String)) (tr : List Effect)
      (r : Except String (List (String × String))),
      uploadPhase env l = (tr, r) → ∀ ef ∈ tr, ∃ t p, ef = Effect.upload t p := by
  intro l
  induction l with
  | nil =>
    intro tr r h ef hef
    simp only [uploadPhase, Prod.mk.injEq] at h
    rw [← h.1] at hef
    simp at hef
  | cons tp rest ih =>
    intro tr r h ef hef
    obtain ⟨typ, path⟩ := tp
    simp only [uploadPhase] at h
    cases hu : env.uploadRes typ path with
    | error e =>
      simp only [hu, Prod.mk.injEq] at h
      rw [← h.1] at hef
      simp only [List.mem_singleton] at hef
      exact ⟨typ, path, hef⟩
    | ok fid =>
      simp only [hu] at h
      rcases hrest : uploadPhase env rest with ⟨tr2, r2⟩
      simp only [hrest, Prod.mk.injEq] at h
      rw [← h.1] at hef
      rcases List.mem_cons.mp hef with rfl | hef2
      · exact ⟨typ, path, rfl⟩
      · exact ih tr2 r2 hrest ef hef2

theorem uploadPhase_ok_mem (env : Env) :
    ∀ (l : List (String × String)) (tr : List Effect)
      (ups : List (String × String)),
      uploadPhase env l = (tr, .ok ups) →
      ∀ tp ∈ l, Effect.upload tp.1 tp.2 ∈ tr := by
  intro l
  induction l with
  | nil => intro tr ups h tp htp; simp at htp
  | cons hd rest ih =>
    intro tr ups h tp htp
    obtain ⟨typ, path⟩ := hd
    simp only [uploadPhase] at h
    cases hu : env.uploadRes typ path with
    | error e =>
      simp only [hu, Prod.mk.injEq] at h
      exact absurd h.2 (by simp)
    | ok fid =>
      simp only [hu] at h
      rcases hrest : uploadPhase env rest with ⟨tr2, r2⟩
      simp only [hrest, Prod.mk.injEq] at h
      obtain ⟨h1, h2⟩ := h
      subst h1
      rcases List.mem_cons.mp htp with rfl | htp2
      · simp
      · cases hr2 : r2 with
        | error e => rw [hr2] at h2; simp [Except.map] at h2
        | ok ups2 =>
          rw [hr2] at hrest
          exact List.mem_cons_of_mem _ (ih tr2 ups2 hrest tp htp2)

theorem pollLoop_trace_shape (env : Env) :
    ∀ (fuel n : Nat) (job : JobObj) (st : String) (tr : List Effect)
      (res : Option (JobObj × String)),
      pollLoop env fuel n job st = (tr, res) →
      ∀ ef ∈ tr, ef = Effect.sleepPoll ∨ ef = Effect.retrieveJob := by
  intro fuel
  induction fuel with
  | zero =>
    intro n job st tr res h ef hef
    simp only [pollLoop] at h
    split at h <;>
      (simp only [Prod.mk.injEq] at h; rw [← h.1] at hef; simp at hef)
  | succ f ih =>
    intro n job st tr res h ef hef
    simp only [pollLoop] at h
    split at h
    · simp only [Prod.mk.injEq] at h
      rw [← h.1] at hef
      simp at hef
    · rcases hrec : pollLoop env f (n + 1) (env.retrieveRes n)
          ((env.retrieveRes n).status.getD "unknown") with ⟨tr2, res2⟩
      simp only [hrec, Prod.mk.injEq] at h
      rw [← h.1] at hef
      rcases List.mem_cons.mp hef with rfl | hef2
      · exact Or.inl rfl
      rcases List.mem_cons.mp hef2 with rfl | hef3
      · exact Or.inr rfl
      · exact ih (n + 1) (env.retrieveRes n)
          ((env.retrieveRes n).status.getD "unknown") tr2 res2 hrec ef hef3

theorem diagTrace_facts (env : Env) :
    Effect.printSnapshot ∈ diagTrace env ∧
    Effect.fetchEvents ∈ diagTrace env ∧
    Effect.fetchCheckpoints ∈ diagTrace env ∧
    (∀ e, env.eventsRes = .error e → Effect.logEventsError e ∈ diagTrace env) ∧
    (∀ e, env.ckptsRes = .error e →
      Effect.logCheckpointsError e ∈ diagTrace env) ∧
    Effect.monitorReport ∉ diagTrace env ∧
    Effect.createEval ∉ diagTrace env ∧
    (∀ d, Effect.createEvalRunEff d ∉ diagTrace env) ∧
    Effect.listOutputItemsEff ∉ diagTrace env := by
  rcases he : env.eventsRes with e1 | n1 <;>
    rcases hc : env.ckptsRes with e2 | n2 <;>
      simp [diagTrace, he, hc]

theorem runPipeline_eq (env : Env) {dsFiles : List (String × String)}
    {fuel : Nat} {tru : List Effect} {ups : List (String × String)}
    {j0 jf : JobObj} {trp : List Effect} {st : String}
    (hup : uploadPhase env dsFiles = (tru, .ok ups))
    (hjob : env.createJobRes = .ok j0)
    (hpoll : pollLoop env fuel 0 j0 (j0.status.getD "unknown")
      = (trp, some (jf, st))) :
    runPipeline env dsFiles fuel =
      (tru ++ Effect.createFtJob :: (trp ++ (pipelineTail env ups jf st).1),
       (pipelineTail env ups jf st).2) := by
  unfold runPipeline
  simp only [hup, hjob, hpoll]
  rcases hpt : pipelineTail env ups jf st with ⟨trt, out⟩
  simp [hpt]

theorem runPipeline_mem (env : Env) {dsFiles : List (String × String)}
    {fuel : Nat} {tru : List Effect} {ups : List (String × String)}
    {j0 jf : JobObj} {trp : List Effect} {st : String}
    (hup : uploadPhase env dsFiles = (tru, .ok ups))
    (hjob : env.createJobRes = .ok j0)
    (hpoll : pollLoop env fuel 0 j0 (j0.status.getD "unknown")
      = (trp, some (jf, st))) (ef : Effect) :
    ef ∈ (runPipeline env dsFiles fuel).1 ↔
      ef ∈ tru ∨ ef = Effect.createFtJob ∨ ef ∈ trp ∨
        ef ∈ (pipelineTail env ups jf st).1 := by
  rw [runPipeline_eq env hup hjob hpoll]
  simp [List.mem_append]

theorem pipelineTail_diagnose (env : Env) (ups : List (String × String))
    (jf : JobObj) {st : String} (hst : st ≠ "succeeded") :
    pipelineTail env ups jf st = (diagTrace env, .finished) := by
  unfold pipelineTail
  rw [if_pos hst]

theorem pipelineTail_missing_eval_cfg (env : Env)
    (ups : List (String × String)) (jf : JobObj)
    (hrep : env.reportRes = .ok ()) (hen : env.evalEnable = true)
    (hmiss : env.dataSrcCfg = none ∨ env.testCrit = none) :
    pipelineTail env ups jf "succeeded"
      = ([Effect.monitorReport, Effect.warnMissingEvalFile], .finished) := by
  unfold pipelineTail
  rw [if_neg (by simp)]
  rcases hmiss with h | h
  · simp [hrep, hen, h]
  · rcases hd : env.dataSrcCfg with _ | a
    · simp [hrep, hen, hd]
    · simp [hrep, hen, hd, h]

theorem pipelineTail_missing_template (env : Env)
    (ups : List (String × String)) (jf : JobObj)
    (hrep : env.reportRes = .ok ()) (hen : env.evalEnable = true)
    {a b : String} (hds : env.dataSrcCfg = some a)
    (htc : env.testCrit = some b)
    {eid : String} (hce : env.createEvalRes = .ok eid)
    (hrt : env.runTemplate = none) :
    pipelineTail env ups jf "succeeded"
      = ([Effect.monitorReport, Effect.createEval,
          Effect.warnMissingRunTemplate], .finished) := by
  unfold pipelineTail
  rw [if_neg (by simp)]
  simp [hrep, hen, hds, htc, hce, hrt]

/-! ## Failure diagnosis (claim C4) -/

/-- C4: whenever the job's terminal status is not `succeeded`, the
orchestrator run ends normally (the diagnostics `try/except` blocks never
mask the failure as an exception), prints the job snapshot, issues the
event and checkpoint fetches, logs — rather than raises — any error those
fetches produce, and neither generates a report nor makes any evaluation
call (no evaluation creation, no run submission, no output-item listing). -/
theorem failed_job_diagnosis_no_eval (env : Env)
    {dsFiles : List (String × String)} {fuel : Nat} {tru : List Effect}
    {ups : List (String × String)} {j0 jf : JobObj} {trp : List Effect}
    {st : String}
    (hup : uploadPhase env dsFiles = (tru, .ok ups))
    (hjob : env.createJobRes = .ok j0)
    (hpoll : pollLoop env fuel 0 j0 (j0.status.getD "unknown")
      = (trp, some (jf, st)))
    (hst : st ≠ "succeeded") :
    (runPipeline env dsFiles fuel).2 = .finished ∧
    Effect.printSnapshot ∈ (runPipeline env dsFiles fuel).1 ∧
    Effect.fetchEvents ∈ (runPipeline env dsFiles fuel).1 ∧
    Effect.fetchCheckpoints ∈ (runPipeline env dsFiles fuel).1 ∧
    (∀ e, env.eventsRes = .error e →
      Effect.logEventsError e ∈ (runPipeline env dsFiles fuel).1) ∧
    (∀ e, env.ckptsRes = .error e →
      Effect.logCheckpointsError e ∈ (runPipeline env dsFiles fuel).1) ∧
    Effect.monitorReport ∉ (runPipeline env dsFiles fuel).1 ∧
    Effect.createEval ∉ (runPipeline env dsFiles fuel).1 ∧
    (∀ d, Effect.createEvalRunEff d ∉ (runPipeline env dsFiles fuel).1) ∧
    Effect.listOutputItemsEff ∉ (runPipeline env dsFiles fuel).1 := by
  have htail := pipelineTail_diagnose env ups jf hst
  have hmem := runPipeline_mem env hup hjob hpoll
  simp only [htail] at hmem
  obtain ⟨d1, d2, d3, d4, d5, d6, d7, d8, d9⟩ := diagTrace_facts env
  have hout : (runPipeline env dsFiles fuel).2 = .finished := by
    rw [runPipeline_eq env hup hjob hpoll]
    simp [htail]
  have hupl := uploadPhase_trace_uploads env dsFiles tru (.ok ups) hup
  have hpol := pollLoop_trace_shape env fuel 0 j0
    (j0.status.getD "unknown") trp (some (jf, st)) hpoll
  refine ⟨hout, ?_, ?_, ?_, ?_, ?_, ?_, ?_, ?_, ?_⟩
  · exact (hmem _).mpr (Or.inr (Or.inr (Or.inr d1)))
  · exact (hmem _).mpr (Or.inr (Or.inr (Or.inr d2)))
  · exact (hmem _).mpr (Or.inr (Or.inr (Or.inr d3)))
  · intro e he
    exact (hmem _).mpr (Or.inr (Or.inr (Or.inr (d4 e he))))
  · intro e he
    exact (hmem _).mpr (Or.inr (Or.inr (Or.inr (d5 e he))))
  · intro hin
    rcases (hmem _).mp hin with h | h | h | h
    · obtain ⟨t, p, heq⟩ := hupl _ h
      exact Effect.noConfusion heq
    · exact Effect.noConfusion h
    · rcases hpol _ h with h' | h' <;> exact Effect.noConfusion h'
    · exact d6 h
  · intro hin
    rcases (hmem _).mp hin with h | h | h | h
    · obtain ⟨t, p, heq⟩ := hupl _ h
      exact Effect.noConfusion heq
    · exact Effect.noConfusion h
    · rcases hpol _ h with h' | h' <;> exact Effect.noConfusion h'
    · exact d7 h
  · intro d hin
    rcases (hmem _).mp hin with h | h | h | h
    · obtain ⟨t, p, heq⟩ := hupl _ h
      exact Effect.noConfusion heq
    · exact Effect.noConfusion h
    · rcases hpol _ h with h' | h' <;> exact Effect.noConfusion h'
    · exact d8 d h
  · intro hin
    rcases (hmem _).mp hin with h | h | h | h
    · obtain ⟨t, p, heq⟩ := hupl _ h
      exact Effect.noConfusion heq
    · exact Effect.noConfusion h
    · rcases hpol _ h with h' | h' <;> exact Effect.noConfusion h'
    · exact d9 h

/-- Witness for C4: a run whose job is already `failed` at creation ends
normally, prints the snapshot, and never creates an evaluation. -/
theorem failed_job_diagnosis_no_eval_witness :
    (runPipeline envFail filesC 3).2 = POutcome.finished ∧
    Effect.createEval ∉ (runPipeline envFail filesC 3).1 ∧
    Effect.printSnapshot ∈ (runPipeline envFail filesC 3).1 := by
  have hup : uploadPhase envFail filesC
      = ([Effect.upload "train" "d/train.jsonl",
          Effect.upload "valid" "d/valid.jsonl",
          Effect.upload "eval" "d/eval.jsonl"],
         .ok [("train", "file-d/train.jsonl"), ("valid", "file-d/valid.jsonl"),
              ("eval", "file-d/eval.jsonl")]) := by rfl
  have hpoll : pollLoop envFail 3 0 jobF (jobF.status.getD "unknown")
      = ([], some (jobF, "failed")) := by rfl
  have h := failed_job_diagnosis_no_eval envFail hup rfl hpoll (by decide)
  exact ⟨h.1, h.2.2.2.2.2.2.2.1, h.2.1⟩

/-! ## Evaluation-phase soft failures (claim C7) -/

/-- C7 (counterexample): with a succeeded job, evaluation enabled and only
the run-template file missing, the orchestrator still creates the
evaluation entity before discovering the missing file — contradicting the
claim that a missing run template entails no evaluation creation. -/
theorem missing_run_template_still_creates_evaluation :
    envNoTemplate.runTemplate = none ∧
    Effect.createEval ∈ (runPipeline envNoTemplate filesC 3).1 ∧
    (runPipeline envNoTemplate filesC 3).2 = POutcome.finished := by
  refine ⟨rfl, by decide, by decide⟩

/-- C7 (amended): after a succeeded job with evaluation enabled, a missing
data-source-config or testing-criteria file makes the run log a warning and
end normally — no evaluation creation, no run submission, no output
listing, the report already generated.  A missing run template likewise
ends the run normally with a warning and no run submission, but the
evaluation entity has already been created, because `create_evaluation`
precedes the template read. -/
theorem missing_eval_config_soft_skip (env : Env)
    {dsFiles : List (String × String)} {fuel : Nat} {tru : List Effect}
    {ups : List (String × String)} {j0 jf : JobObj} {trp : List Effect}
    (hup : uploadPhase env dsFiles = (tru, .ok ups))
    (hjob : env.createJobRes = .ok j0)
    (hpoll : pollLoop env fuel 0 j0 (j0.status.getD "unknown")
      = (trp, some (jf, "succeeded")))
    (hrep : env.reportRes = .ok ())
    (hen : env.evalEnable = true) :
    ((env.dataSrcCfg = none ∨ env.testCrit = none) →
      (runPipeline env dsFiles fuel).2 = .finished ∧
      Effect.monitorReport ∈ (runPipeline env dsFiles fuel).1 ∧
      Effect.warnMissingEvalFile ∈ (runPipeline env dsFiles fuel).1 ∧
      Effect.createEval ∉ (runPipeline env dsFiles fuel).1 ∧
      (∀ d, Effect.createEvalRunEff d ∉ (runPipeline env dsFiles fuel).1) ∧
      Effect.listOutputItemsEff ∉ (runPipeline env dsFiles fuel).1) ∧
    (∀ a b eid, env.dataSrcCfg = some a → env.testCrit = some b →
      env.createEvalRes = .ok eid → env.runTemplate = none →
      (runPipeline env dsFiles fuel).2 = .finished ∧
      Effect.monitorReport ∈ (runPipeline env dsFiles fuel).1 ∧
      Effect.createEval ∈ (runPipeline env dsFiles fuel).1 ∧
      Effect.warnMissingRunTemplate ∈ (runPipeline env dsFiles fuel).1 ∧
      (∀ d, Effect.createEvalRunEff d ∉ (runPipeline env dsFiles fuel).1)) := by
  have hupl := uploadPhase_trace_uploads env dsFiles tru (.ok ups) hup
  have hpol := pollLoop_trace_shape env fuel 0 j0
    (j0.status.getD "unknown") trp (some (jf, "succeeded")) hpoll
  have hmem := runPipeline_mem env hup hjob hpoll
  constructor
  · intro hmiss
    have htail := pipelineTail_missing_eval_cfg env ups jf hrep hen hmiss
    have hmem' := hmem
    simp only [htail] at hmem'
    have hout : (runPipeline env dsFiles fuel).2 = .finished := by
      rw [runPipeline_eq env hup hjob hpoll]
      simp [htail]
    refine ⟨hout, ?_, ?_, ?_, ?_, ?_⟩
    · exact (hmem' _).mpr (Or.inr (Or.inr (Or.inr (by simp))))
    · exact (hmem' _).mpr (Or.inr (Or.inr (Or.inr (by simp))))
    · intro hin
      rcases (hmem' _).mp hin with h | h | h | h
      · obtain ⟨t, p, heq⟩ := hupl _ h
        exact Effect.noConfusion heq
      · exact Effect.noConfusion h
      · rcases hpol _ h with h' | h' <;> exact Effect.noConfusion h'
      · simp at h
    · intro d hin
      rcases (hmem' _).mp hin with h | h | h | h
      · obtain ⟨t, p, heq⟩ := hupl _ h
        exact Effect.noConfusion heq
      · exact Effect.noConfusion h
      · rcases hpol _ h with h' | h' <;> exact Effect.noConfusion h'
      · simp at h
    · intro hin
      rcases (hmem' _).mp hin with h | h | h | h
      · obtain ⟨t, p, heq⟩ := hupl _ h
        exact Effect.noConfusion heq
      · exact Effect.noConfusion h
      · rcases hpol _ h with h' | h' <;> exact Effect.noConfusion h'
      · simp at h
  · intro a b eid hds htc hce hrt
    have htail := pipelineTail_missing_template env ups jf hrep hen hds htc hce hrt
    have hmem' := hmem
    simp only [htail] at hmem'
    have hout : (runPipeline env dsFiles fuel).2 = .finished := by
      rw [runPipeline_eq env hup hjob hpoll]
      simp [htail]
    refine ⟨hout, ?_, ?_, ?_, ?_⟩
    · exact (hmem' _).mpr (Or.inr (Or.inr (Or.inr (by simp))))
    · exact (hmem' _).mpr (Or.inr (Or.inr (Or.inr (by simp))))
    · exact (hmem' _).mpr (Or.inr (Or.inr (Or.inr (by simp))))
    · intro d hin
      rcases (hmem' _).mp hin with h | h | h | h
      · obtain ⟨t, p, heq⟩ := hupl _ h
        exact Effect.noConfusion heq
      · exact Effect.noConfusion h
      · rcases hpol _ h with h' | h' <;> exact Effect.noConfusion h'
      · simp at h

/-- Witness for C7: with the data-source-config file missing, a successful
run ends normally, warns, and never creates an evaluation. -/
theorem missing_eval_config_soft_skip_witness :
    (runPipeline envNoDsc filesC 3).2 = POutcome.finished ∧
    Effect.createEval ∉ (runPipeline envNoDsc filesC 3).1 ∧
    Effect.warnMissingEvalFile ∈ (runPipeline envNoDsc filesC 3).1 := by
  have hup : uploadPhase envNoDsc filesC
      = ([Effect.upload "train" "d/train.jsonl",
          Effect.upload "valid" "d/valid.jsonl",
          Effect.upload "eval" "d/eval.jsonl"],
         .ok [("train", "file-d/train.jsonl"), ("valid", "file-d/valid.jsonl"),
              ("eval", "file-d/eval.jsonl")]) := by rfl
  have hpoll : pollLoop envNoDsc 3 0 jobQ (jobQ.status.getD "unknown")
      = ([Effect.sleepPoll, Effect.retrieveJob, Effect.sleepPoll,
          Effect.retrieveJob], some (jobS, "succeeded")) := by rfl
  have h := (missing_eval_config_soft_skip envNoDsc hup rfl hpoll rfl
    rfl).1 (Or.inl rfl)
  exact ⟨h.1, h.2.2.2.1, h.2.2.1⟩

/-! ## Run-template normalization (claim C1) -/

/-- C1 (counterexample): in a fully successful automatic run whose template
carries `"references": "item.ground_truth"`, the single document submitted
to `Evaluation.createRun` still carries `item.ground_truth` (and the
`item.input` message reference), not the bare form — the orchestrator
injects the model and eval-file id but performs no `item.` stripping. -/
theorem pipeline_submits_unstripped_references :
    submittedRunDocs (runPipeline envOk filesC 3).1
      = [updateRunCfg tmplDoc (some "ft:gpt-4o:acme") "file-d/eval.jsonl"] ∧
    (updateRunCfg tmplDoc (some "ft:gpt-4o:acme")
      "file-d/eval.jsonl").references = some "item.ground_truth" ∧
    (updateRunCfg tmplDoc (some "ft:gpt-4o:acme")
      "file-d/eval.jsonl").references ≠ some "ground_truth" ∧
    (updateRunCfg tmplDoc (some "ft:gpt-4o:acme")
      "file-d/eval.jsonl").input_messages
      = some { type := some "item_reference",
               item_reference := some "item.input" } := by
  refine ⟨by decide, rfl, by decide, rfl⟩

/-- C1 (amended): before submitting the evaluation run the automatic
orchestrator injects the fine-tuned model identifier and the uploaded
eval-file identifier into the run template but passes `references` and
`input_messages` through unchanged; the stripping of a leading `item.`
qualifier is performed only by the interactive evaluation menu's run
creation, which maps `item.x` to `x` in `references` and in
`input_messages.item_reference`. -/
theorem run_template_injection_and_menu_stripping :
    ∀ (doc : RunDoc) (m : Option String) (fid rest : String),
      (updateRunCfg doc m fid).references = doc.references ∧
      (updateRunCfg doc m fid).input_messages = doc.input_messages ∧
      (updateRunCfg doc m fid).model = m ∧
      (updateRunCfg doc m fid).source = some ⟨"file_id", fid⟩ ∧
      stripItemRef ("item." ++ rest) = rest ∧
      (sanitizeRunCfg { doc with
        references := some ("item." ++ rest),
        input_messages := none }).references = some rest ∧
      (sanitizeRunCfg { doc with
        references := none,
        input_messages := some { type := some "item_reference",
                                 item_reference := some ("item." ++ rest) }
        }).input_messages
        = some { type := some "item_reference",
                 item_reference := some rest } := by
  intro doc m fid rest
  refine ⟨rfl, rfl, rfl, rfl, stripItemRef_item_append rest, ?_, ?_⟩
  · simp [sanitizeRunCfg, stripItemRef_item_append rest]
  · simp [sanitizeRunCfg, stripItemRef_item_append rest]

/-! ## Upload-before-launch ordering (claim C8) -/

/-- C8: when any split upload raises, the run aborts with that exception
and no `Fine-Tuning.create` call is ever made; when all uploads succeed,
the trace is exactly the upload calls followed by the job-creation call,
and every discovered split's upload call lies in that preceding segment. -/
theorem uploads_complete_before_job_creation (env : Env)
    (dsFiles : List (String × String)) (fuel : Nat) :
    (∀ tr e, uploadPhase env dsFiles = (tr, .error e) →
      (runPipeline env dsFiles fuel).2 = .raised e ∧
      Effect.createFtJob ∉ (runPipeline env dsFiles fuel).1) ∧
    (∀ tr ups, uploadPhase env dsFiles = (tr, .ok ups) →
      ∃ rest, (runPipeline env dsFiles fuel).1
          = tr ++ Effect.createFtJob :: rest ∧
        ∀ tp ∈ dsFiles, Effect.upload tp.1 tp.2 ∈ tr) := by
  constructor
  · intro tr e hup
    have hrun : runPipeline env dsFiles fuel = (tr, .raised e) := by
      unfold runPipeline
      simp only [hup]
    rw [hrun]
    refine ⟨rfl, ?_⟩
    intro hin
    obtain ⟨t, p, heq⟩ :=
      uploadPhase_trace_uploads env dsFiles tr (.error e) hup _ hin
    exact Effect.noConfusion heq
  · intro tr ups hup
    have hups := uploadPhase_ok_mem env dsFiles tr ups hup
    cases hjob : env.createJobRes with
    | error e =>
      refine ⟨[], ?_, hups⟩
      unfold runPipeline
      simp only [hup, hjob]
    | ok j0 =>
      rcases hpoll : pollLoop env fuel 0 j0 (j0.status.getD "unknown")
        with ⟨trp, res⟩
      cases res with
      | none =>
        refine ⟨trp, ?_, hups⟩
        unfold runPipeline
        simp [hup, hjob, hpoll]
      | some pr =>
        obtain ⟨jf, st⟩ := pr
        refine ⟨trp ++ (pipelineTail env ups jf st).1, ?_, hups⟩
        rw [runPipeline_eq env hup hjob hpoll]

/-- Witness for C8: in the all-successful run the three upload calls form
the exact prefix of the trace before the job-creation call, and in the run
whose validation upload fails the pipeline raises with no job creation. -/
theorem uploads_complete_before_job_creation_witness :
    (∃ rest, (runPipeline envOk filesC 3).1
        = [Effect.upload "train" "d/train.jsonl",
           Effect.upload "valid" "d/valid.jsonl",
           Effect.upload "eval" "d/eval.jsonl"]
          ++ Effect.createFtJob :: rest ∧
      ∀ tp ∈ filesC, Effect.upload tp.1 tp.2
        ∈ [Effect.upload "train" "d/train.jsonl",
           Effect.upload "valid" "d/valid.jsonl",
           Effect.upload "eval" "d/eval.jsonl"]) ∧
    (runPipeline envUploadFail filesC 3).2 = .raised "transport error" ∧
    Effect.createFtJob ∉ (runPipeline envUploadFail filesC 3).1 :=
  ⟨(uploads_complete_before_job_creation envOk filesC 3).2
      [Effect.upload "train" "d/train.jsonl",
       Effect.upload "valid" "d/valid.jsonl",
       Effect.upload "eval" "d/eval.jsonl"]
      [("train", "file-d/train.jsonl"), ("valid", "file-d/valid.jsonl"),
       ("eval", "file-d/eval.jsonl")] (by rfl),
   ((uploads_complete_before_job_creation envUploadFail filesC 3).1
      [Effect.upload "train" "d/train.jsonl",
       Effect.upload "valid" "d/valid.jsonl"] "transport error" (by rfl)).1,
   ((uploads_complete_before_job_creation envUploadFail filesC 3).1
      [Effect.upload "train" "d/train.jsonl",
       Effect.upload "valid" "d/valid.jsonl"] "transport error" (by rfl)).2⟩

end MlopsPipeline
